import Mathlib

/-- Word character in the sense of the JS regex class `\w` (ASCII letters, digits, underscore). -/
def isWordChar (c : Char) : Bool := c.isAlphanum || c = '_'

/-- Character-list strings, the model of JS strings throughout. -/
abbrev Str := List Char

/-- Does `pat` occur at the start of `s`? -/
def startsWithL : Str → Str → Bool
  | [], _ => true
  | _ :: _, [] => false
  | p :: ps, c :: cs => p = c && startsWithL ps cs

/-- Does `pat` occur anywhere in `s` (as a contiguous substring)? -/
def occursB (pat : Str) : Str → Bool
  | [] => startsWithL pat []
  | c :: cs => startsWithL pat (c :: cs) || occursB pat cs

def LB : Str := ['_', '_', 'L', 'E', 'F', 'T', '_', 'B', 'R', 'A', 'C', 'E', '_', '_']
def RB : Str := ['_', '_', 'R', 'I', 'G', 'H', 'T', '_', 'B', 'R', 'A', 'C', 'E', '_', '_']

/-- One left-to-right pass replacing every non-overlapping occurrence of the
two-character pattern `a b` by `repl`, as JS `String.replace` does with a global
two-character regex.  Models `.replace(/\\{/g, "__LEFT_BRACE__")` and
`.replace(/\\}/g, "__RIGHT_BRACE__")` in src/utils/fillTemplateString.ts. -/
def replacePair (a b : Char) (repl : Str) : Str → Str
  | x :: y :: rest =>
      if x = a ∧ y = b then repl ++ replacePair a b repl rest
      else x :: replacePair a b repl (y :: rest)
  | l => l

/-- Own-property association-list lookup: the model of reading `values[key]`
for a key the table itself declares.  The `key in values` test of the source
also sees keys inherited from `Object.prototype`; that full test is modeled by
`jsLookup` below. -/
def lookupC (V : List (Str × Str)) (k : Str) : Option Str :=
  match V with
  | [] => none
  | (a, b) :: rest => if a = k then some b else lookupC rest k

/-- The own property names of `Object.prototype` in the Node/V8 runtime the
repository targets: for every plain-object table, JS `key in values` is true
for each of these even when the table does not declare them. -/
def protoKeys : List Str :=
  [("constructor").data, ("hasOwnProperty").data, ("isPrototypeOf").data,
    ("propertyIsEnumerable").data, ("toLocaleString").data, ("toString").data,
    ("valueOf").data, ("__defineGetter__").data, ("__defineSetter__").data,
    ("__lookupGetter__").data, ("__lookupSetter__").data, ("__proto__").data]

/-- JS `String(values[key])` for a key reached through the prototype chain of a
plain object, as the Node/V8 runtime prints it: the inherited methods
stringify to native-code function sources, `constructor` is the `Object`
function, and `__proto__` is `Object.prototype` itself. -/
def protoString (k : Str) : Str :=
  if k = ("constructor").data then ("function Object() \x7b [native code] \x7d").data
  else if k = ("__proto__").data then ("[object Object]").data
  else ("function ").data ++ k ++ ("() \x7b [native code] \x7d").data

/-- The full `key in values ? String(values[key]) : ...` test on a plain-object
table: an own key wins (and shadows the prototype); otherwise a key inherited
from `Object.prototype` is still in `values` and its member stringifies as the
runtime prints it. -/
def jsLookup (V : List (Str × Str)) (k : Str) : Option Str :=
  match lookupC V k with
  | some v => some v
  | none => if protoKeys.contains k then some (protoString k) else none

/-- One left-to-right pass of `.replace(/{(\w+)}/g, ...)`: in the `none` state the
scanner looks for `{`; in the `some acc` state it is inside a potential
placeholder, `acc` holding the word characters read so far in reverse.  On a
full match the looked-up value is emitted verbatim and scanning resumes after
the closing brace (single pass, no rescanning of the value); on a failed match
the regex engine resumes right after the opening brace, and since the
accumulated characters are word characters they cannot open a new match, so
they are emitted literally. -/
def scanA (V : List (Str × Str)) : Str → Option Str → Str
  | [], none => []
  | [], some acc => '{' :: acc.reverse
  | c :: rest, none =>
      if c = '{' then scanA V rest (some []) else c :: scanA V rest none
  | c :: rest, some acc =>
      if isWordChar c then scanA V rest (some (c :: acc))
      else if c = '}' then
        if acc = [] then '{' :: '}' :: scanA V rest none
        else
          match jsLookup V acc.reverse with
          | some v => v ++ scanA V rest none
          | none => '{' :: (acc.reverse ++ '}' :: scanA V rest none)
      else if c = '{' then '{' :: (acc.reverse ++ scanA V rest (some []))
      else '{' :: (acc.reverse ++ c :: scanA V rest none)

/-- Fuel-indexed left-to-right global replacement of the literal pattern `pat` by
`repl`.  One unit of fuel is spent per scan position, so `s.length` fuel always
suffices; the fuel only makes the recursion structural. -/
def replaceAllFuel (pat repl : Str) : Nat → Str → Str
  | _, [] => []
  | 0, s => s
  | fuel + 1, c :: rest =>
      if startsWithL pat (c :: rest) then
        repl ++ replaceAllFuel pat repl fuel ((c :: rest).drop pat.length)
      else c :: replaceAllFuel pat repl fuel rest

/-- Global replacement of the literal pattern `pat` by `repl`, as JS
`String.replace` with a global literal regex: leftmost-first, non-overlapping.
Models `.replace(/__LEFT_BRACE__/g, "{")` and `.replace(/__RIGHT_BRACE__/g, "}")`. -/
def replaceAll (pat repl : Str) (s : Str) : Str := replaceAllFuel pat repl s.length s

/-- Model of `fillTemplateString` (src/utils/fillTemplateString.ts): escaped
braces are first swapped for sentinel strings, then `{word}` placeholders are
resolved in one pass, then the sentinels are swapped back to literal braces.
Values are modeled already stringified, as `String(values[key])` produces them. -/
def fillTemplateString (template : Str) (values : List (Str × Str)) : Str :=
  let s1 := replacePair '\\' '{' LB template
  let s2 := replacePair '\\' '}' RB s1
  let s3 := scanA values s2 none
  let s4 := replaceAll LB ['{'] s3
  replaceAll RB ['}'] s4

/-- Spec-side template syntax: a template decomposed into literal text, escaped
braces, and well-formed `\x7bkey\x7d` placeholders.  `esc true` is `\x5c\x7b`,
`esc false` is `\x5c\x7d`. -/
inductive Item where
  | text (s : Str)
  | esc (left : Bool)
  | hole (k : Str)
deriving DecidableEq

/-- The template string denoted by a list of items. -/
def assemble : List Item → Str
  | [] => []
  | .text s :: rest => s ++ assemble rest
  | .esc true :: rest => '\\' :: '{' :: assemble rest
  | .esc false :: rest => '\\' :: '}' :: assemble rest
  | .hole k :: rest => '{' :: (k ++ '}' :: assemble rest)

/-- Modelled from the spec: the resolution law the spec states for
`fillTemplateString` — every `\x7bk\x7d` with `k` in the table is replaced by the
table value, every `\x7bk\x7d` with `k` not in the table is left verbatim
including its braces, and the escapes resolve to literal braces regardless of
the table; literal text is untouched. -/
def renderSpec (V : List (Str × Str)) : List Item → Str
  | [] => []
  | .text s :: rest => s ++ renderSpec V rest
  | .esc true :: rest => '{' :: renderSpec V rest
  | .esc false :: rest => '}' :: renderSpec V rest
  | .hole k :: rest =>
      match lookupC V k with
      | some v => v ++ renderSpec V rest
      | none => '{' :: (k ++ '}' :: renderSpec V rest)

/-- Literal-text characters that cannot interact with the escape pass, the
placeholder pass, or the sentinel-restoring passes. -/
def plainChar (c : Char) : Bool := c ≠ '\\' && c ≠ '{' && c ≠ '_'

def wfItem : Item → Bool
  | .text s => s.all plainChar
  | .esc _ => true
  | .hole k => !k.isEmpty && k.all (fun c => c.isAlphanum) && !protoKeys.contains k

def wfTemplate (items : List Item) : Bool := items.all wfItem

/-- Table values free of underscores, so that no occurrence of the internal
sentinels `__LEFT_BRACE__` / `__RIGHT_BRACE__` can be forged. -/
def wfValues (V : List (Str × Str)) : Bool := V.all (fun p => p.2.all (fun c => c ≠ '_'))

/-- Intermediate block structure of the string reaching the sentinel-restoring
passes: single non-underscore characters interleaved with whole sentinels. -/
inductive Blk where
  | ch (c : Char)
  | lb
  | rb
deriving DecidableEq

def flatB : List Blk → Str
  | [] => []
  | .ch c :: bs => c :: flatB bs
  | .lb :: bs => LB ++ flatB bs
  | .rb :: bs => RB ++ flatB bs

def wfBlk : Blk → Bool
  | .ch c => c ≠ '_'
  | _ => true

def wfBlks (bs : List Blk) : Bool := bs.all wfBlk

/-- Block decomposition of the output of the placeholder pass on a well-formed
template. -/
def blocksOf (V : List (Str × Str)) : List Item → List Blk
  | [] => []
  | .text s :: rest => s.map Blk.ch ++ blocksOf V rest
  | .esc true :: rest => Blk.lb :: blocksOf V rest
  | .esc false :: rest => Blk.rb :: blocksOf V rest
  | .hole k :: rest =>
      match lookupC V k with
      | some v => v.map Blk.ch ++ blocksOf V rest
      | none => Blk.ch '{' :: (k.map Blk.ch ++ (Blk.ch '}' :: blocksOf V rest))

/-- The string after the first escape pass (`\x5c\x7b` to sentinel). -/
def flatE1 : List Item → Str
  | [] => []
  | .text s :: rest => s ++ flatE1 rest
  | .esc true :: rest => LB ++ flatE1 rest
  | .esc false :: rest => '\\' :: '}' :: flatE1 rest
  | .hole k :: rest => '{' :: (k ++ '}' :: flatE1 rest)

/-- The string after both escape passes. -/
def flat1 : List Item → Str
  | [] => []
  | .text s :: rest => s ++ flat1 rest
  | .esc true :: rest => LB ++ flat1 rest
  | .esc false :: rest => RB ++ flat1 rest
  | .hole k :: rest => '{' :: (k ++ '}' :: flat1 rest)

/-- Blocks after the pass restoring the left sentinel. -/
def flat4 : List Blk → Str
  | [] => []
  | .ch c :: bs => c :: flat4 bs
  | .lb :: bs => '{' :: flat4 bs
  | .rb :: bs => RB ++ flat4 bs

/-- Blocks after the pass restoring the right sentinel. -/
def flat5 : List Blk → Str
  | [] => []
  | .ch c :: bs => c :: flat5 bs
  | .lb :: bs => '{' :: flat5 bs
  | .rb :: bs => '}' :: flat5 bs

/-- Worker (Agent) execution status, src/Agent.ts `state`. -/
inductive AgentState where
  | idle
  | busy
  | error
deriving DecidableEq

/-- Model of the Worker (class `Agent`): the identity text fields and the status
flag.  The id and the model client are abstracted away (the client is passed as
explicit generate/format functions where needed). -/
structure AgentM where
  role : Str
  goal : Str
  background : Str
  state : AgentState := .idle
deriving DecidableEq

/-- Model of the Unit of work (class `Task`): its text fields and mutable
execution state.  Dependency tasks are referenced by position in the owning
workflow's task list; times are abstract clock readings. -/
structure TaskM where
  description : Str
  expectedOutput : Str
  depIdxs : Option (List Nat) := none
  output : Option Str := none
  context : Str := []
  inputTokens : Nat := 0
  outputTokens : Nat := 0
  startTime : Int := 0
  endTime : Int := 0
  totalTime : Int := 0
  retryCount : Nat := 0
deriving DecidableEq

/-- Model of the Orchestrator (class `Workflow`): task list, agent list and the
aggregate metrics. -/
structure WorkflowM where
  tasks : List TaskM
  agents : List AgentM
  inputTokens : Nat := 0
  outputTokens : Nat := 0
  startTime : Int := 0
  endTime : Int := 0
  totalTime : Int := 0
deriving DecidableEq

/-- `Task.getExpectedOutputPromptPart` (src/Task.ts). -/
def getExpectedOutputPromptPart (expectedOutput : Str) : Str :=
  ("Your final response must follow the following guidelines: ").data ++ expectedOutput
    ++ (". Your answer must include the full content without summarizing.").data

/-- `Task.prompt` (src/Task.ts): description, newline, expected-output sentence. -/
def TaskM.prompt (t : TaskM) : Str :=
  t.description ++ '\n' :: getExpectedOutputPromptPart t.expectedOutput

/-- JS `a || b` on strings: `b` when `a` is empty, else `a`. -/
def jsOrStr (s d : Str) : Str := if s = [] then d else s

def personalityTemplate : Str := ("You are a {role}. {background}.\nYour goal is: {goal}.").data

/-- `Agent.getAgentPersonality` (src/Agent.ts). -/
def getAgentPersonality (ag : AgentM) : Str :=
  fillTemplateString personalityTemplate
    [(("role").data, ag.role), (("goal").data, ag.goal),
     (("background").data, jsOrStr ag.background [])]

/-- An apostrophe character, spelled by code point. -/
def apos : Char := Char.ofNat 39

def taskContextTemplate : Str :=
  ("{taskPrompt}\n\nThis is the context you").data ++ apos :: ("re working with:\n{context}").data

/-- `Agent.getTaskPromptWithContext` (src/Agent.ts). -/
def getTaskPromptWithContext (t : TaskM) (context : Str) : Str :=
  fillTemplateString taskContextTemplate
    [(("taskPrompt").data, t.prompt), (("context").data, context)]

/-- `Agent.getTaskPrompt` (src/Agent.ts): the context branch is on JS truthiness,
so an empty or absent context selects the bare task prompt. -/
def getTaskPrompt (ag : AgentM) (t : TaskM) (context : Option Str) : Str :=
  let taskContext :=
    match context with
    | some c => if c = [] then t.prompt else getTaskPromptWithContext t c
    | none => t.prompt
  getAgentPersonality ag ++ '\n' :: taskContext

deriving instance DecidableEq for Except

/-- Outcome of one `Agent.executeTask` call: the state set on entering the try
block, the final agent and task states, and the returned or raised value. -/
structure AgentExecResult where
  entryState : AgentState
  agent : AgentM
  task : TaskM
  result : Except Str Str
deriving DecidableEq

/-- Model of `Agent.executeTask` (src/Agent.ts), parameterized by the model
client's generate and format operations (either may raise).  On success the
formatter's token counts are written onto the task and the formatted text is
returned; on any failure the same error is re-raised and the state is `error`. -/
def agentExecuteTask {α : Type} (gen : Str → Except Str α)
    (fmt : α → Except Str (Str × Nat × Nat)) (ag : AgentM) (t : TaskM)
    (context : Option Str) : AgentExecResult :=
  let busy : AgentM := { ag with state := .busy }
  let prompt := getTaskPrompt busy t context
  match gen prompt with
  | .error e => ⟨.busy, { busy with state := .error }, t, .error e⟩
  | .ok raw =>
    match fmt raw with
    | .error e => ⟨.busy, { busy with state := .error }, t, .error e⟩
    | .ok (text, inTok, outTok) =>
        ⟨.busy, { busy with state := .idle },
          { t with inputTokens := inTok, outputTokens := outTok }, .ok text⟩

/-- Raw chat-completion message, with possibly missing content
(src/Models/OpenAIModel.ts). -/
structure RawMessage where
  content : Option Str
deriving DecidableEq

structure RawChoice where
  message : Option RawMessage
deriving DecidableEq

structure RawUsage where
  prompt_tokens : Nat
  completion_tokens : Nat
deriving DecidableEq

structure ChatCompletion where
  choices : List RawChoice
  usage : Option RawUsage
deriving DecidableEq

/-- The optional chain `output.choices?.[0]?.message?.content`. -/
def contentOf (output : ChatCompletion) : Option Str :=
  (output.choices.head?.bind RawChoice.message).bind RawMessage.content

/-- Model of `OpenAIModel.modelResponseFormatter`: `!content` is true for missing
content and for the empty string, and both produce an empty `contentOuput`
without raising; token counts fall back to 0 when usage is absent. -/
def modelResponseFormatter (output : ChatCompletion) : Str × Nat × Nat :=
  let inTok := match output.usage with | some u => u.prompt_tokens | none => 0
  let outTok := match output.usage with | some u => u.completion_tokens | none => 0
  match contentOf output with
  | none => ([], inTok, outTok)
  | some c => if c = [] then ([], inTok, outTok) else (c, inTok, outTok)

/-- A chat completion with one choice and missing content: a concrete
no-content response. -/
def emptyRaw : ChatCompletion :=
  { choices := [{ message := some { content := none } }],
    usage := some { prompt_tokens := 8, completion_tokens := 0 } }

def DEFAULT_RETRIES : Nat := 3

/-- JS `String(error)` for an `Error` object carrying message `m`. -/
def errToString (m : Str) : Str :=
  if m = [] then ("Error").data else ("Error: ").data ++ m

/-- The wrapping `Task failed after 3 attempts: ...` message (src/Task.ts). -/
def taskFailMessage (m : Str) : Str :=
  ("Task failed after ").data ++ (Nat.repr DEFAULT_RETRIES).data
    ++ (" attempts: ").data ++ errToString m

/-- JS truthiness filter used by `filter(Boolean)` over optional strings:
drops both undefined outputs and empty-string outputs. -/
def truthyStr : Option Str → Option Str
  | some s => if s = [] then none else some s
  | none => none

/-- `Array.prototype.join("\n")`. -/
def joinLines : List Str → Str
  | [] => []
  | [s] => s
  | s :: rest => s ++ '\n' :: joinLines rest

/-- The dependency-context assembly of `Task.execute`:
`dependencyTasks.map(t => t.output).filter(Boolean).join("\n")`. -/
def assembleContext (outs : List (Option Str)) : Str :=
  joinLines (outs.filterMap truthyStr)

/-- The retry loop of `Task.execute` (src/Task.ts lines 76-152).  `oracle` is the
outcome of `agent.executeTask` per attempt index: the returned text together
with the token counts the agent writes onto the task.  `clock` abstracts
`performance.now()`; one tick is consumed per call.  Returns the task state,
the next tick, and the returned text or the raised error. -/
def attemptLoop (clock : Nat → Int) (oracle : Nat → Except Str (Str × Nat × Nat)) :
    Nat → TaskM → Nat → Nat → TaskM × Nat × Except Str Str
  | 0, t, _, tick => (t, tick, .error (("Unexpected error in execute method").data))
  | remaining + 1, t, attempt, tick =>
      let t1 := { t with retryCount := attempt }
      match oracle attempt with
      | .ok (result, inTok, outTok) =>
          let s := clock tick
          let e := clock (tick + 1)
          ({ t1 with inputTokens := inTok, outputTokens := outTok, output := some result,
                     startTime := s, endTime := e, totalTime := e - s },
            tick + 2, .ok result)
      | .error err =>
          if attempt < DEFAULT_RETRIES - 1 then
            attemptLoop clock oracle remaining t1 (attempt + 1) (tick + 1)
          else
            (t1, tick + 1, .error (taskFailMessage err))

/-- The `if (this.dependencyTasks)` block of `Task.execute`: with a declared
dependency list the context is assembled from the dependency outputs; without
one the context field is left untouched. -/
def depApply (depOutputs : Option (List (Option Str))) (t : TaskM) : TaskM :=
  match depOutputs with
  | some outs => { t with context := assembleContext outs }
  | none => t

/-- Model of `Task.execute`: dependency-context assembly (when a dependency list
is declared), then the bounded retry loop.  `depOutputs` is the `output` field
of each declared dependency at call time. -/
def taskExecute (clock : Nat → Int) (oracle : Nat → Except Str (Str × Nat × Nat))
    (depOutputs : Option (List (Option Str))) (t : TaskM) (tick : Nat) :
    TaskM × Nat × Except Str Str :=
  attemptLoop clock oracle DEFAULT_RETRIES (depApply depOutputs t) 0 tick

/-- Placeholder resolution over one Worker at workflow start (src/Workflow.ts). -/
def resolveAgent (input : List (Str × Str)) (a : AgentM) : AgentM :=
  { a with role := fillTemplateString a.role input,
           background := fillTemplateString a.background input,
           goal := fillTemplateString a.goal input }

/-- Placeholder resolution over one Unit at workflow start (src/Workflow.ts). -/
def resolveTask (input : List (Str × Str)) (t : TaskM) : TaskM :=
  { t with description := fillTemplateString t.description input,
           expectedOutput := fillTemplateString t.expectedOutput input }

/-- The `if (input)` block of `Workflow.initiate`: all agents then all tasks. -/
def resolveWorkflow (input : Option (List (Str × Str))) (wf : WorkflowM) : WorkflowM :=
  match input with
  | some inp =>
      { wf with agents := wf.agents.map (resolveAgent inp),
                tasks := wf.tasks.map (resolveTask inp) }
  | none => wf

/-- The task loop of `Workflow.initiate` (src/Workflow.ts lines 171-282).
`oracles` gives, per task index, the per-attempt outcome of the worker call.
Dependency outputs are read from the current states of the workflow's task
list.  On a task failure the same error is re-raised at once; after the last
task the run finishes; an exhausted loop (empty task list) raises the
dedicated completion error. -/
def runTasks (clock : Nat → Int) (oracles : Nat → Nat → Except Str (Str × Nat × Nat))
    (wfStart : Int) :
    List TaskM → List TaskM → Nat → Nat → WorkflowM → WorkflowM × Except Str Str
  | processed, [], _, _, acc =>
      ({ acc with tasks := processed }, .error (("Workflow failed to complete").data))
  | processed, t :: rest, idx, tick, acc =>
      let allTasks := processed ++ t :: rest
      let depOuts := t.depIdxs.map (fun idxs => idxs.map (fun i => (allTasks.get? i).bind TaskM.output))
      let step := taskExecute clock (oracles idx) depOuts t tick
      match step.2.2 with
      | .error e => ({ acc with tasks := processed ++ step.1 :: rest }, .error e)
      | .ok out =>
          let acc' := { acc with inputTokens := acc.inputTokens + step.1.inputTokens,
                                 outputTokens := acc.outputTokens + step.1.outputTokens }
          match rest with
          | [] =>
              let wfEnd := clock step.2.1
              ({ acc' with tasks := processed ++ [step.1], endTime := wfEnd,
                           totalTime := wfEnd - wfStart }, .ok out)
          | _ =>
              runTasks clock oracles wfStart (processed ++ [step.1]) rest (idx + 1) step.2.1 acc'

/-- Model of `Workflow.initiate`: optional placeholder resolution, run start
time, then the sequential task loop. -/
def initiate (clock : Nat → Int) (oracles : Nat → Nat → Except Str (Str × Nat × Nat))
    (wf : WorkflowM) (input : Option (List (Str × Str))) : WorkflowM × Except Str Str :=
  let wf1 := resolveWorkflow input wf
  let wfStart := clock 0
  let wf2 := { wf1 with startTime := wfStart }
  runTasks clock oracles wfStart [] wf2.tasks 0 1 wf2

/-- A per-attempt Worker-call outcome that makes the Unit's retry loop succeed:
some attempt `k` within the budget succeeds and all earlier attempts fail. -/
def oracleWins (o : Nat → Except Str (Str × Nat × Nat)) : Prop :=
  ∃ k, k < DEFAULT_RETRIES ∧ (∀ i, i < k → ∃ e, o i = .error e) ∧
    ∃ r, o k = .ok r

theorem sw_head_ne (p c : Char) (ps cs : Str) (h : p ≠ c) :
    startsWithL (p :: ps) (c :: cs) = false := by
  show (decide (p = c) && startsWithL ps cs) = false
  rw [decide_eq_false h, Bool.false_and]

theorem sw_eq_cons (p c : Char) (ps cs : Str) (h : p = c) :
    startsWithL (p :: ps) (c :: cs) = startsWithL ps cs := by
  show (decide (p = c) && startsWithL ps cs) = startsWithL ps cs
  rw [decide_eq_true h, Bool.true_and]

theorem sw_append_self (pat t : Str) : startsWithL pat (pat ++ t) = true := by
  induction pat with
  | nil => rfl
  | cons p ps ih => rw [List.cons_append, sw_eq_cons p p _ _ rfl, ih]

theorem replaceAllFuel_congr (pat repl : Str) (hpat : pat ≠ []) :
    ∀ f1 f2 s, s.length ≤ f1 → s.length ≤ f2 →
      replaceAllFuel pat repl f1 s = replaceAllFuel pat repl f2 s := by
  intro f1
  induction f1 with
  | zero =>
      intro f2 s h1 _
      have hs : s = [] := List.eq_nil_of_length_eq_zero (Nat.le_zero.mp h1)
      subst hs
      cases f2 <;> rfl
  | succ f ih =>
      intro f2 s h1 h2
      cases s with
      | nil => cases f2 <;> rfl
      | cons c rest =>
          cases f2 with
          | zero => exact absurd h2 (by simp)
          | succ f2' =>
              simp only [replaceAllFuel]
              by_cases hsw : startsWithL pat (c :: rest) = true
              · rw [hsw]
                simp only [if_true]
                have hlen : ((c :: rest).drop pat.length).length ≤ f := by
                  rw [List.length_drop]
                  have hp1 : 1 ≤ pat.length := by
                    cases pat with
                    | nil => exact absurd rfl hpat
                    | cons _ _ => simp
                  simp only [List.length_cons] at h1 ⊢
                  omega
                have hlen2 : ((c :: rest).drop pat.length).length ≤ f2' := by
                  rw [List.length_drop]
                  have hp1 : 1 ≤ pat.length := by
                    cases pat with
                    | nil => exact absurd rfl hpat
                    | cons _ _ => simp
                  simp only [List.length_cons] at h2 ⊢
                  omega
                rw [ih _ _ hlen hlen2]
              · rw [Bool.not_eq_true] at hsw
                rw [hsw]
                simp only [Bool.false_eq_true, if_false]
                have hr1 : rest.length ≤ f := by
                  simp only [List.length_cons] at h1; omega
                have hr2 : rest.length ≤ f2' := by
                  simp only [List.length_cons] at h2; omega
                rw [ih _ _ hr1 hr2]

theorem replaceAll_cons_skip (pat repl : Str) (c : Char) (t : Str)
    (h : startsWithL pat (c :: t) = false) :
    replaceAll pat repl (c :: t) = c :: replaceAll pat repl t := by
  show replaceAllFuel pat repl (c :: t).length (c :: t) = _
  rw [List.length_cons]
  simp only [replaceAllFuel, h]
  simp [replaceAll]

theorem replaceAll_consume (pat repl t : Str) (hpat : pat ≠ []) :
    replaceAll pat repl (pat ++ t) = repl ++ replaceAll pat repl t := by
  obtain ⟨c, ps, rfl⟩ : ∃ c ps, pat = c :: ps := by
    cases pat with
    | nil => exact absurd rfl hpat
    | cons c ps => exact ⟨c, ps, rfl⟩
  show replaceAllFuel _ _ ((c :: ps) ++ t).length ((c :: ps) ++ t) = _
  rw [List.cons_append, List.length_cons]
  simp only [replaceAllFuel]
  have hsw : startsWithL (c :: ps) (c :: (ps ++ t)) = true := by
    rw [← List.cons_append]
    exact sw_append_self _ _
  rw [hsw]
  simp only [if_true]
  congr 1
  rw [show (c :: (ps ++ t)).drop (c :: ps).length = t from by
        rw [← List.cons_append]; exact List.drop_left _ _]
  exact replaceAllFuel_congr _ _ hpat _ _ _ (by simp) le_rfl

theorem replacePair_cons_skip (a b : Char) (repl : Str) (c : Char) (t : Str) (h : c ≠ a) :
    replacePair a b repl (c :: t) = c :: replacePair a b repl t := by
  cases t with
  | nil => rfl
  | cons y rest =>
      simp only [replacePair]
      rw [if_neg (fun hh => h hh.1)]

theorem replacePair_append_skip (a b : Char) (repl s t : Str) (h : a ∉ s) :
    replacePair a b repl (s ++ t) = s ++ replacePair a b repl t := by
  induction s with
  | nil => rfl
  | cons c s ih =>
      have hc : c ≠ a := fun e => h (e ▸ List.mem_cons_self c s)
      rw [List.cons_append, replacePair_cons_skip a b repl c _ hc,
          ih (fun hm => h (List.mem_cons_of_mem c hm)), List.cons_append]

theorem replacePair_consume (a b : Char) (repl t : Str) :
    replacePair a b repl (a :: b :: t) = repl ++ replacePair a b repl t := by
  simp [replacePair]

theorem replacePair_nomatch_pair (a b : Char) (repl : Str) (x y : Char) (t : Str)
    (h : ¬(x = a ∧ y = b)) :
    replacePair a b repl (x :: y :: t) = x :: replacePair a b repl (y :: t) := by
  simp only [replacePair]
  rw [if_neg h]

theorem wfTemplate_cons (it : Item) (rest : List Item) (h : wfTemplate (it :: rest) = true) :
    wfItem it = true ∧ wfTemplate rest = true := by
  simpa [wfTemplate, List.all_cons, Bool.and_eq_true] using h

theorem text_no_backslash (s : Str) (h : s.all plainChar = true) : '\\' ∉ s := by
  intro hm
  have := List.all_eq_true.mp h _ hm
  simp [plainChar] at this

theorem text_no_open (s : Str) (h : s.all plainChar = true) : '{' ∉ s := by
  intro hm
  have := List.all_eq_true.mp h _ hm
  simp [plainChar] at this

theorem key_no_backslash (k : Str) (h : k.all (fun c => c.isAlphanum) = true) : '\\' ∉ k := by
  intro hm
  have := List.all_eq_true.mp h _ hm
  simp at this

theorem wfItem_hole (k : Str) (h : wfItem (Item.hole k) = true) :
    k ≠ [] ∧ k.all (fun c => c.isAlphanum) = true ∧ protoKeys.contains k = false := by
  simp only [wfItem, Bool.and_eq_true, Bool.not_eq_true'] at h
  refine ⟨?_, h.1.2, h.2⟩
  intro e
  rw [e] at h
  simp [List.isEmpty] at h

theorem jsLookup_not_proto (V : List (Str × Str)) (k : Str)
    (h : protoKeys.contains k = false) : jsLookup V k = lookupC V k := by
  cases hl : lookupC V k with
  | some v => simp [jsLookup, hl]
  | none =>
      simp only [jsLookup, hl, h]
      simp

theorem stage1 (items : List Item) (h : wfTemplate items = true) :
    replacePair '\\' '{' LB (assemble items) = flatE1 items := by
  induction items with
  | nil => rfl
  | cons it rest ih =>
      obtain ⟨hit, hrest⟩ := wfTemplate_cons it rest h
      cases it with
      | text s =>
          simp only [assemble, flatE1]
          rw [replacePair_append_skip _ _ _ _ _ (text_no_backslash s hit), ih hrest]
      | esc left =>
          cases left with
          | true =>
              simp only [assemble, flatE1]
              rw [replacePair_consume, ih hrest]
          | false =>
              simp only [assemble, flatE1]
              rw [replacePair_nomatch_pair _ _ _ _ _ _ (by simp),
                  replacePair_cons_skip _ _ _ _ _ (by decide), ih hrest]
      | hole k =>
          have hk : k.all (fun c => c.isAlphanum) = true := (wfItem_hole k hit).2.1
          simp only [assemble, flatE1]
          rw [replacePair_cons_skip _ _ _ _ _ (by decide),
              replacePair_append_skip _ _ _ _ _ (key_no_backslash k hk),
              replacePair_cons_skip _ _ _ _ _ (by decide), ih hrest]

theorem lb_no_backslash : '\\' ∉ LB := by decide

theorem stage2 (items : List Item) (h : wfTemplate items = true) :
    replacePair '\\' '}' RB (flatE1 items) = flat1 items := by
  induction items with
  | nil => rfl
  | cons it rest ih =>
      obtain ⟨hit, hrest⟩ := wfTemplate_cons it rest h
      cases it with
      | text s =>
          simp only [flatE1, flat1]
          rw [replacePair_append_skip _ _ _ _ _ (text_no_backslash s hit), ih hrest]
      | esc left =>
          cases left with
          | true =>
              simp only [flatE1, flat1]
              rw [replacePair_append_skip _ _ _ _ _ lb_no_backslash, ih hrest]
          | false =>
              simp only [flatE1, flat1]
              rw [replacePair_consume, ih hrest]
      | hole k =>
          have hk : k.all (fun c => c.isAlphanum) = true := (wfItem_hole k hit).2.1
          simp only [flatE1, flat1]
          rw [replacePair_cons_skip _ _ _ _ _ (by decide),
              replacePair_append_skip _ _ _ _ _ (key_no_backslash k hk),
              replacePair_cons_skip _ _ _ _ _ (by decide), ih hrest]

theorem scanA_cons_skip (V : List (Str × Str)) (c : Char) (t : Str) (h : c ≠ '{') :
    scanA V (c :: t) none = c :: scanA V t none := by
  simp [scanA, h]

theorem scanA_append_skip (V : List (Str × Str)) (s t : Str) (h : '{' ∉ s) :
    scanA V (s ++ t) none = s ++ scanA V t none := by
  induction s with
  | nil => rfl
  | cons c s ih =>
      have hc : c ≠ '{' := fun e => h (e ▸ List.mem_cons_self c s)
      rw [List.cons_append, scanA_cons_skip V c _ hc,
          ih (fun hm => h (List.mem_cons_of_mem c hm)), List.cons_append]

theorem lb_no_open : '{' ∉ LB := by decide

theorem rb_no_open : '{' ∉ RB := by decide

theorem scanA_key (V : List (Str × Str)) (t : Str) :
    ∀ (k : Str), k.all isWordChar = true → ∀ acc, (acc ≠ [] ∨ k ≠ []) →
      scanA V (k ++ '}' :: t) (some acc) =
        match jsLookup V (acc.reverse ++ k) with
        | some v => v ++ scanA V t none
        | none => '{' :: ((acc.reverse ++ k) ++ '}' :: scanA V t none) := by
  intro k
  induction k with
  | nil =>
      intro _ acc hne
      have hacc : acc ≠ [] := hne.resolve_right (fun hf => hf rfl)
      simp only [List.nil_append, List.append_nil]
      simp [scanA, isWordChar, hacc]
  | cons c k ih =>
      intro hk acc _
      have hc : isWordChar c = true := by
        simp only [List.all_cons, Bool.and_eq_true] at hk
        exact hk.1
      have hk' : k.all isWordChar = true := by
        simp only [List.all_cons, Bool.and_eq_true] at hk
        exact hk.2
      rw [List.cons_append]
      rw [show scanA V (c :: (k ++ '}' :: t)) (some acc) = scanA V (k ++ '}' :: t) (some (c :: acc))
            from by simp [scanA, hc]]
      rw [ih hk' (c :: acc) (Or.inl (by simp))]
      have he : (c :: acc).reverse ++ k = acc.reverse ++ (c :: k) := by simp
      rw [he]

theorem scanA_hole (V : List (Str × Str)) (k t : Str)
    (hk : k.all isWordChar = true) (hne : k ≠ [])
    (hkp : protoKeys.contains k = false) :
    scanA V ('{' :: (k ++ '}' :: t)) none =
      match lookupC V k with
      | some v => v ++ scanA V t none
      | none => '{' :: (k ++ '}' :: scanA V t none) := by
  rw [show scanA V ('{' :: (k ++ '}' :: t)) none = scanA V (k ++ '}' :: t) (some []) from by
        simp [scanA]]
  rw [scanA_key V t k hk [] (Or.inr hne)]
  simp [jsLookup_not_proto V k hkp]

theorem flatB_append (xs ys : List Blk) : flatB (xs ++ ys) = flatB xs ++ flatB ys := by
  induction xs with
  | nil => rfl
  | cons b bs ih =>
      cases b <;> simp [flatB, ih]

theorem flatB_map_ch (s : Str) : flatB (s.map Blk.ch) = s := by
  induction s with
  | nil => rfl
  | cons c s ih => simp [flatB, ih]

theorem alphanum_isWordChar (k : Str) (h : k.all (fun c => c.isAlphanum) = true) :
    k.all isWordChar = true := by
  rw [List.all_eq_true] at h ⊢
  intro c hc
  have := h c hc
  simp [isWordChar, this]

theorem stage3 (V : List (Str × Str)) (items : List Item) (h : wfTemplate items = true) :
    scanA V (flat1 items) none = flatB (blocksOf V items) := by
  induction items with
  | nil => rfl
  | cons it rest ih =>
      obtain ⟨hit, hrest⟩ := wfTemplate_cons it rest h
      cases it with
      | text s =>
          simp only [flat1, blocksOf]
          rw [scanA_append_skip V s _ (text_no_open s hit), ih hrest, flatB_append, flatB_map_ch]
      | esc left =>
          cases left with
          | true =>
              simp only [flat1, blocksOf, flatB]
              rw [scanA_append_skip V LB _ lb_no_open, ih hrest]
          | false =>
              simp only [flat1, blocksOf, flatB]
              rw [scanA_append_skip V RB _ rb_no_open, ih hrest]
      | hole k =>
          have hk : k.all (fun c => c.isAlphanum) = true := (wfItem_hole k hit).2.1
          have hne : k ≠ [] := (wfItem_hole k hit).1
          have hkp : protoKeys.contains k = false := (wfItem_hole k hit).2.2
          simp only [flat1, blocksOf]
          rw [scanA_hole V k _ (alphanum_isWordChar k hk) hne hkp]
          cases hLk : lookupC V k with
          | some v =>
              simp only [hLk]
              rw [ih hrest, flatB_append, flatB_map_ch]
          | none =>
              simp only [hLk]
              rw [ih hrest]
              simp [flatB, flatB_append, flatB_map_ch]

theorem wfBlks_cons (b : Blk) (bs : List Blk) (h : wfBlks (b :: bs) = true) :
    wfBlk b = true ∧ wfBlks bs = true := by
  simpa [wfBlks, List.all_cons, Bool.and_eq_true] using h

theorem wfBlk_ch (c : Char) (h : wfBlk (Blk.ch c) = true) : c ≠ '_' := by
  simpa [wfBlk] using h

theorem la_drop6 (bs : List Blk) (h : wfBlks bs = true) :
    startsWithL (['_', 'B', 'R', 'A', 'C', 'E', '_', '_']) (flatB bs) = false := by
  cases bs with
  | nil => rfl
  | cons b bs' =>
      obtain ⟨hb, _⟩ := wfBlks_cons b bs' h
      cases b with
      | ch c =>
          simp only [flatB]
          exact sw_head_ne '_' c _ _ (Ne.symm (wfBlk_ch c hb))
      | lb => simp [flatB, LB, startsWithL]
      | rb => simp [flatB, RB, startsWithL]

theorem la_drop5 (bs : List Blk) (h : wfBlks bs = true) :
    startsWithL (['T', '_', 'B', 'R', 'A', 'C', 'E', '_', '_']) (flatB bs) = false := by
  cases bs with
  | nil => rfl
  | cons b bs' =>
      obtain ⟨_, hbs'⟩ := wfBlks_cons b bs' h
      cases b with
      | ch c =>
          simp only [flatB]
          by_cases hc : ('T' : Char) = c
          · rw [sw_eq_cons _ _ _ _ hc]
            exact la_drop6 bs' hbs'
          · exact sw_head_ne _ _ _ _ hc
      | lb => simp [flatB, LB, startsWithL]
      | rb => simp [flatB, RB, startsWithL]

theorem la_drop4 (bs : List Blk) (h : wfBlks bs = true) :
    startsWithL (['F', 'T', '_', 'B', 'R', 'A', 'C', 'E', '_', '_']) (flatB bs) = false := by
  cases bs with
  | nil => rfl
  | cons b bs' =>
      obtain ⟨_, hbs'⟩ := wfBlks_cons b bs' h
      cases b with
      | ch c =>
          simp only [flatB]
          by_cases hc : ('F' : Char) = c
          · rw [sw_eq_cons _ _ _ _ hc]
            exact la_drop5 bs' hbs'
          · exact sw_head_ne _ _ _ _ hc
      | lb => simp [flatB, LB, startsWithL]
      | rb => simp [flatB, RB, startsWithL]

theorem la_drop3 (bs : List Blk) (h : wfBlks bs = true) :
    startsWithL (['E', 'F', 'T', '_', 'B', 'R', 'A', 'C', 'E', '_', '_']) (flatB bs) = false := by
  cases bs with
  | nil => rfl
  | cons b bs' =>
      obtain ⟨_, hbs'⟩ := wfBlks_cons b bs' h
      cases b with
      | ch c =>
          simp only [flatB]
          by_cases hc : ('E' : Char) = c
          · rw [sw_eq_cons _ _ _ _ hc]
            exact la_drop4 bs' hbs'
          · exact sw_head_ne _ _ _ _ hc
      | lb => simp [flatB, LB, startsWithL]
      | rb => simp [flatB, RB, startsWithL]

theorem la_drop2 (bs : List Blk) (h : wfBlks bs = true) :
    startsWithL (['L', 'E', 'F', 'T', '_', 'B', 'R', 'A', 'C', 'E', '_', '_']) (flatB bs) = false := by
  cases bs with
  | nil => rfl
  | cons b bs' =>
      obtain ⟨_, hbs'⟩ := wfBlks_cons b bs' h
      cases b with
      | ch c =>
          simp only [flatB]
          by_cases hc : ('L' : Char) = c
          · rw [sw_eq_cons _ _ _ _ hc]
            exact la_drop3 bs' hbs'
          · exact sw_head_ne _ _ _ _ hc
      | lb => simp [flatB, LB, startsWithL]
      | rb => simp [flatB, RB, startsWithL]

theorem la_drop1 (bs : List Blk) (h : wfBlks bs = true) :
    startsWithL (['_', 'L', 'E', 'F', 'T', '_', 'B', 'R', 'A', 'C', 'E', '_', '_'])
      (flatB bs) = false := by
  cases bs with
  | nil => rfl
  | cons b bs' =>
      obtain ⟨hb, _⟩ := wfBlks_cons b bs' h
      cases b with
      | ch c =>
          simp only [flatB]
          exact sw_head_ne '_' c _ _ (Ne.symm (wfBlk_ch c hb))
      | lb => simp [flatB, LB, startsWithL]
      | rb => simp [flatB, RB, startsWithL]

theorem sw_lb_head_ne (c : Char) (cs : Str) (h : c ≠ '_') :
    startsWithL LB (c :: cs) = false := by
  rw [show (LB : Str)
        = '_' :: ['_', 'L', 'E', 'F', 'T', '_', 'B', 'R', 'A', 'C', 'E', '_', '_'] from rfl]
  exact sw_head_ne _ _ _ _ (Ne.symm h)

theorem sw_rb_head_ne (c : Char) (cs : Str) (h : c ≠ '_') :
    startsWithL RB (c :: cs) = false := by
  rw [show (RB : Str)
        = '_' :: ['_', 'R', 'I', 'G', 'H', 'T', '_', 'B', 'R', 'A', 'C', 'E', '_', '_'] from rfl]
  exact sw_head_ne _ _ _ _ (Ne.symm h)

theorem r4_skip_rb (bs : List Blk) (h : wfBlks bs = true) :
    replaceAll LB ['{'] (RB ++ flatB bs) = RB ++ replaceAll LB ['{'] (flatB bs) := by
  have hLB : (LB : Str)
      = '_' :: '_' :: ['L', 'E', 'F', 'T', '_', 'B', 'R', 'A', 'C', 'E', '_', '_'] := rfl
  have c13 : startsWithL LB ('_' :: '_' :: flatB bs) = false := by
    rw [hLB, sw_eq_cons _ _ _ _ rfl, sw_eq_cons _ _ _ _ rfl]
    exact la_drop2 bs h
  have c14 : startsWithL LB ('_' :: flatB bs) = false := by
    rw [hLB, sw_eq_cons _ _ _ _ rfl]
    exact la_drop1 bs h
  have c0 : startsWithL LB
      ('_' :: '_' :: 'R' :: 'I' :: 'G' :: 'H' :: 'T' :: '_' :: 'B' :: 'R' :: 'A' :: 'C' :: 'E'
        :: '_' :: '_' :: flatB bs) = false := by
    rw [hLB, sw_eq_cons _ _ _ _ rfl, sw_eq_cons _ _ _ _ rfl]
    exact sw_head_ne _ _ _ _ (by decide)
  have c1 : startsWithL LB
      ('_' :: 'R' :: 'I' :: 'G' :: 'H' :: 'T' :: '_' :: 'B' :: 'R' :: 'A' :: 'C' :: 'E'
        :: '_' :: '_' :: flatB bs) = false := by
    rw [hLB, sw_eq_cons _ _ _ _ rfl]
    exact sw_head_ne _ _ _ _ (by decide)
  have c7 : startsWithL LB
      ('_' :: 'B' :: 'R' :: 'A' :: 'C' :: 'E' :: '_' :: '_' :: flatB bs) = false := by
    rw [hLB, sw_eq_cons _ _ _ _ rfl]
    exact sw_head_ne _ _ _ _ (by decide)
  show replaceAll LB ['{']
      ('_' :: '_' :: 'R' :: 'I' :: 'G' :: 'H' :: 'T' :: '_' :: 'B' :: 'R' :: 'A' :: 'C' :: 'E'
        :: '_' :: '_' :: flatB bs) = _
  rw [replaceAll_cons_skip _ _ _ _ c0, replaceAll_cons_skip _ _ _ _ c1,
      replaceAll_cons_skip _ _ _ _ (sw_lb_head_ne 'R' _ (by decide)),
      replaceAll_cons_skip _ _ _ _ (sw_lb_head_ne 'I' _ (by decide)),
      replaceAll_cons_skip _ _ _ _ (sw_lb_head_ne 'G' _ (by decide)),
      replaceAll_cons_skip _ _ _ _ (sw_lb_head_ne 'H' _ (by decide)),
      replaceAll_cons_skip _ _ _ _ (sw_lb_head_ne 'T' _ (by decide)),
      replaceAll_cons_skip _ _ _ _ c7,
      replaceAll_cons_skip _ _ _ _ (sw_lb_head_ne 'B' _ (by decide)),
      replaceAll_cons_skip _ _ _ _ (sw_lb_head_ne 'R' _ (by decide)),
      replaceAll_cons_skip _ _ _ _ (sw_lb_head_ne 'A' _ (by decide)),
      replaceAll_cons_skip _ _ _ _ (sw_lb_head_ne 'C' _ (by decide)),
      replaceAll_cons_skip _ _ _ _ (sw_lb_head_ne 'E' _ (by decide)),
      replaceAll_cons_skip _ _ _ _ c13, replaceAll_cons_skip _ _ _ _ c14]
  rfl

theorem stage4 (bs : List Blk) (h : wfBlks bs = true) :
    replaceAll LB ['{'] (flatB bs) = flat4 bs := by
  induction bs with
  | nil => rfl
  | cons b bs' ih =>
      obtain ⟨hb, hbs'⟩ := wfBlks_cons b bs' h
      cases b with
      | ch c =>
          simp only [flatB, flat4]
          rw [replaceAll_cons_skip _ _ _ _ (sw_lb_head_ne c _ (wfBlk_ch c hb)), ih hbs']
      | lb =>
          simp only [flatB, flat4]
          rw [replaceAll_consume _ _ _ (by decide), ih hbs']
          rfl
      | rb =>
          simp only [flatB, flat4]
          rw [r4_skip_rb bs' hbs', ih hbs']

theorem stage5 (bs : List Blk) (h : wfBlks bs = true) :
    replaceAll RB ['}'] (flat4 bs) = flat5 bs := by
  induction bs with
  | nil => rfl
  | cons b bs' ih =>
      obtain ⟨hb, hbs'⟩ := wfBlks_cons b bs' h
      cases b with
      | ch c =>
          simp only [flat4, flat5]
          rw [replaceAll_cons_skip _ _ _ _ (sw_rb_head_ne c _ (wfBlk_ch c hb)), ih hbs']
      | lb =>
          simp only [flat4, flat5]
          rw [replaceAll_cons_skip _ _ _ _ (sw_rb_head_ne '{' _ (by decide)), ih hbs']
      | rb =>
          simp only [flat4, flat5]
          rw [replaceAll_consume _ _ _ (by decide), ih hbs']
          rfl

theorem lookupC_mem (V : List (Str × Str)) (k v : Str) (h : lookupC V k = some v) :
    ∃ p ∈ V, p.2 = v := by
  induction V with
  | nil => simp [lookupC] at h
  | cons p rest ih =>
      obtain ⟨a, b⟩ := p
      simp only [lookupC] at h
      by_cases hak : a = k
      · rw [if_pos hak] at h
        exact ⟨(a, b), List.mem_cons_self _ _, Option.some.inj h⟩
      · rw [if_neg hak] at h
        obtain ⟨q, hq, hv⟩ := ih h
        exact ⟨q, List.mem_cons_of_mem _ hq, hv⟩

theorem wfBlks_append (xs ys : List Blk) (hx : wfBlks xs = true) (hy : wfBlks ys = true) :
    wfBlks (xs ++ ys) = true := by
  simp only [wfBlks, List.all_append, Bool.and_eq_true]
  exact ⟨hx, hy⟩

theorem wfBlks_map_ch (s : Str) (h : ∀ c ∈ s, c ≠ '_') : wfBlks (s.map Blk.ch) = true := by
  induction s with
  | nil => rfl
  | cons c s ih =>
      simp only [List.map_cons, wfBlks, List.all_cons, Bool.and_eq_true]
      constructor
      · simpa [wfBlk] using h c (List.mem_cons_self c s)
      · simpa [wfBlks] using ih (fun x hx => h x (List.mem_cons_of_mem c hx))

theorem alphanum_ne_underscore (c : Char) (h : c.isAlphanum = true) : c ≠ '_' := by
  intro e
  rw [e] at h
  exact absurd h (by decide)

theorem blocksOf_wf (V : List (Str × Str)) (items : List Item)
    (ht : wfTemplate items = true) (hv : wfValues V = true) :
    wfBlks (blocksOf V items) = true := by
  induction items with
  | nil => rfl
  | cons it rest ih =>
      obtain ⟨hit, hrest⟩ := wfTemplate_cons it rest ht
      cases it with
      | text s =>
          simp only [blocksOf]
          refine wfBlks_append _ _ (wfBlks_map_ch s ?_) (ih hrest)
          intro c hc
          have := List.all_eq_true.mp hit _ hc
          simp only [plainChar, Bool.and_eq_true, decide_eq_true_eq] at this
          exact this.2
      | esc left =>
          cases left with
          | true =>
              simp only [blocksOf]
              simpa [wfBlks, wfBlk] using ih hrest
          | false =>
              simp only [blocksOf]
              simpa [wfBlks, wfBlk] using ih hrest
      | hole k =>
          have hk : k.all (fun c => c.isAlphanum) = true := (wfItem_hole k hit).2.1
          simp only [blocksOf]
          cases hLk : lookupC V k with
          | some v =>
              refine wfBlks_append _ _ (wfBlks_map_ch v ?_) (ih hrest)
              intro c hc
              obtain ⟨p, hp, hpv⟩ := lookupC_mem V k v hLk
              have := List.all_eq_true.mp hv _ hp
              have := List.all_eq_true.mp this c (hpv ▸ hc)
              simpa using this
          | none =>
              have h1 : wfBlks (k.map Blk.ch) = true := by
                refine wfBlks_map_ch k ?_
                intro c hc
                exact alphanum_ne_underscore c (List.all_eq_true.mp hk _ hc)
              have h2 : wfBlks (Blk.ch '}' :: blocksOf V rest) = true := by
                simp only [wfBlks, List.all_cons, Bool.and_eq_true]
                exact ⟨by simp [wfBlk], ih hrest⟩
              have h3 := wfBlks_append _ _ h1 h2
              simp only [wfBlks, List.all_cons, Bool.and_eq_true]
              constructor
              · simp [wfBlk]
              · simpa [wfBlks] using h3

theorem flat5_append (xs ys : List Blk) : flat5 (xs ++ ys) = flat5 xs ++ flat5 ys := by
  induction xs with
  | nil => rfl
  | cons b bs ih =>
      cases b <;> simp [flat5, ih]

theorem flat5_map_ch (s : Str) : flat5 (s.map Blk.ch) = s := by
  induction s with
  | nil => rfl
  | cons c s ih => simp [flat5, ih]

theorem stage6 (V : List (Str × Str)) (items : List Item) :
    flat5 (blocksOf V items) = renderSpec V items := by
  induction items with
  | nil => rfl
  | cons it rest ih =>
      cases it with
      | text s =>
          simp only [blocksOf, renderSpec]
          rw [flat5_append, flat5_map_ch, ih]
      | esc left =>
          cases left with
          | true => simp only [blocksOf, renderSpec, flat5, ih]
          | false => simp only [blocksOf, renderSpec, flat5, ih]
      | hole k =>
          simp only [blocksOf, renderSpec]
          cases hLk : lookupC V k with
          | some v =>
              simp only [hLk]
              rw [flat5_append, flat5_map_ch, ih]
          | none =>
              simp only [hLk, flat5]
              rw [flat5_append, flat5_map_ch]
              simp [flat5, ih]

/-- The staged implementation agrees with the spec-side resolution law on every
well-formed decomposed template and sentinel-free table. -/
theorem fill_renders (items : List Item) (V : List (Str × Str))
    (ht : wfTemplate items = true) (hv : wfValues V = true) :
    fillTemplateString (assemble items) V = renderSpec V items := by
  show replaceAll RB ['}']
      (replaceAll LB ['{']
        (scanA V (replacePair '\\' '}' RB (replacePair '\\' '{' LB (assemble items))) none)) = _
  rw [stage1 items ht, stage2 items ht, stage3 V items ht,
      stage4 _ (blocksOf_wf V items ht hv), stage5 _ (blocksOf_wf V items ht hv),
      stage6 V items]

theorem occursB_suffix (s : Str) : ∀ a : Str, occursB s (a ++ s) = true := by
  intro a
  induction a with
  | nil =>
      simp only [List.nil_append]
      cases s with
      | nil => rfl
      | cons c cs =>
          simp only [occursB]
          rw [show startsWithL (c :: cs) (c :: cs) = true from by
                have := sw_append_self (c :: cs) []
                simpa using this]
          simp
  | cons x a ih =>
      simp only [List.cons_append, occursB]
      have h2 : occursB s (List.append a s) = true := ih
      rw [h2, Bool.or_true]

theorem attemptLoop_ok (clock : Nat → Int) (oracle : Nat → Except Str (Str × Nat × Nat))
    (rem : Nat) (t : TaskM) (attempt tick : Nat) (res : Str) (it ot : Nat)
    (h : oracle attempt = .ok (res, it, ot)) :
    attemptLoop clock oracle (rem + 1) t attempt tick =
      ({ t with retryCount := attempt, inputTokens := it, outputTokens := ot,
                output := some res, startTime := clock tick, endTime := clock (tick + 1),
                totalTime := clock (tick + 1) - clock tick },
        tick + 2, .ok res) := by
  simp only [attemptLoop, h]

theorem attemptLoop_err (clock : Nat → Int) (oracle : Nat → Except Str (Str × Nat × Nat))
    (rem : Nat) (t : TaskM) (attempt tick : Nat) (e : Str)
    (h : oracle attempt = .error e) (hlt : attempt < DEFAULT_RETRIES - 1) :
    attemptLoop clock oracle (rem + 1) t attempt tick =
      attemptLoop clock oracle rem { t with retryCount := attempt } (attempt + 1) (tick + 1) := by
  simp only [attemptLoop, h]
  rw [if_pos hlt]

theorem attemptLoop_err_last (clock : Nat → Int) (oracle : Nat → Except Str (Str × Nat × Nat))
    (rem : Nat) (t : TaskM) (tick : Nat) (e : Str)
    (h : oracle 2 = .error e) :
    attemptLoop clock oracle (rem + 1) t 2 tick =
      ({ t with retryCount := 2 }, tick + 1, .error (taskFailMessage e)) := by
  simp only [attemptLoop, h]
  rw [if_neg (by simp [DEFAULT_RETRIES])]

theorem depApply_output (d : Option (List (Option Str))) (t : TaskM) :
    (depApply d t).output = t.output := by
  cases d <;> rfl

/-- C1: Retry law for Unit execution.  First part: a Worker call that fails on
the attempts before `k` (`k < 3`) and succeeds at attempt `k` makes `execute`
return the attempt's text with `retryCount = k` and a defined `output`.  Second
part: a Worker call that fails on all three attempts leaves `output` undefined
and raises the attempt-count wrapper around the final failure, whose message
contains the original failure's message. -/
theorem c1_retry_law :
    (∀ (clock : Nat → Int) (oracle : Nat → Except Str (Str × Nat × Nat))
        (depOuts : Option (List (Option Str))) (t : TaskM) (tick : Nat)
        (k : Nat) (res : Str) (it ot : Nat),
        k < DEFAULT_RETRIES →
        (∀ i, i < k → ∃ e, oracle i = .error e) →
        oracle k = .ok (res, it, ot) →
        (taskExecute clock oracle depOuts t tick).1.retryCount = k ∧
        (taskExecute clock oracle depOuts t tick).1.output = some res ∧
        (taskExecute clock oracle depOuts t tick).2.2 = .ok res) ∧
    (∀ (clock : Nat → Int) (oracle : Nat → Except Str (Str × Nat × Nat))
        (depOuts : Option (List (Option Str))) (t : TaskM) (tick : Nat)
        (e0 e1 e2 : Str),
        oracle 0 = .error e0 → oracle 1 = .error e1 → oracle 2 = .error e2 →
        t.output = none →
        (taskExecute clock oracle depOuts t tick).1.output = none ∧
        (taskExecute clock oracle depOuts t tick).2.2 = .error (taskFailMessage e2) ∧
        occursB e2 (taskFailMessage e2) = true) := by
  constructor
  · intro clock oracle depOuts t tick k res it ot hk hfail hok
    have hk3 : k < 3 := hk
    interval_cases k
    · have key : taskExecute clock oracle depOuts t tick =
          ({ depApply depOuts t with
              retryCount := 0,
              inputTokens := it,
              outputTokens := ot,
              output := some res,
              startTime := clock tick,
              endTime := clock (tick + 1),
              totalTime := clock (tick + 1) - clock tick }, tick + 2, .ok res) :=
        attemptLoop_ok clock oracle 2 (depApply depOuts t) 0 tick res it ot hok
      rw [key]
      exact ⟨rfl, rfl, rfl⟩
    · obtain ⟨e0, h0⟩ := hfail 0 (by omega)
      have s1 : taskExecute clock oracle depOuts t tick =
          attemptLoop clock oracle 2 { depApply depOuts t with retryCount := 0 } 1 (tick + 1) :=
        attemptLoop_err clock oracle 2 (depApply depOuts t) 0 tick e0 h0 (by decide)
      have s2 := attemptLoop_ok clock oracle 1 { depApply depOuts t with retryCount := 0 }
        1 (tick + 1) res it ot hok
      have key := s1.trans s2
      rw [key]
      exact ⟨rfl, rfl, rfl⟩
    · obtain ⟨e0, h0⟩ := hfail 0 (by omega)
      obtain ⟨e1, h1⟩ := hfail 1 (by omega)
      have s1 : taskExecute clock oracle depOuts t tick =
          attemptLoop clock oracle 2 { depApply depOuts t with retryCount := 0 } 1 (tick + 1) :=
        attemptLoop_err clock oracle 2 (depApply depOuts t) 0 tick e0 h0 (by decide)
      have s2 : attemptLoop clock oracle 2 { depApply depOuts t with retryCount := 0 } 1 (tick + 1)
          = attemptLoop clock oracle 1
              { depApply depOuts t with retryCount := 1 } 2 (tick + 2) :=
        attemptLoop_err clock oracle 1 { depApply depOuts t with retryCount := 0 }
          1 (tick + 1) e1 h1 (by decide)
      have s3 := attemptLoop_ok clock oracle 0 { depApply depOuts t with retryCount := 1 }
        2 (tick + 2) res it ot hok
      have key := (s1.trans s2).trans s3
      rw [key]
      exact ⟨rfl, rfl, rfl⟩
  · intro clock oracle depOuts t tick e0 e1 e2 h0 h1 h2 hout
    have s1 : taskExecute clock oracle depOuts t tick =
        attemptLoop clock oracle 2 { depApply depOuts t with retryCount := 0 } 1 (tick + 1) :=
      attemptLoop_err clock oracle 2 (depApply depOuts t) 0 tick e0 h0 (by decide)
    have s2 : attemptLoop clock oracle 2 { depApply depOuts t with retryCount := 0 } 1 (tick + 1)
        = attemptLoop clock oracle 1 { depApply depOuts t with retryCount := 1 } 2 (tick + 2) :=
      attemptLoop_err clock oracle 1 { depApply depOuts t with retryCount := 0 }
        1 (tick + 1) e1 h1 (by decide)
    have s3 : attemptLoop clock oracle 1 { depApply depOuts t with retryCount := 1 } 2 (tick + 2)
        = ({ depApply depOuts t with retryCount := 2 }, tick + 3, .error (taskFailMessage e2)) :=
      attemptLoop_err_last clock oracle 0 { depApply depOuts t with retryCount := 1 }
        (tick + 2) e2 h2
    have key := (s1.trans s2).trans s3
    rw [key]
    refine ⟨?_, rfl, ?_⟩
    · show (depApply depOuts t).output = none
      rw [depApply_output, hout]
    · show occursB e2 (taskFailMessage e2) = true
      by_cases he : e2 = []
      · subst he
        decide
      · rw [show taskFailMessage e2
              = (("Task failed after ").data ++ (Nat.repr DEFAULT_RETRIES).data
                  ++ (" attempts: ").data ++ ("Error: ").data) ++ e2 from by
            simp [taskFailMessage, errToString, he]]
        exact occursB_suffix e2 _

/-- C1 witness: a Worker failing once then succeeding gives retryCount 1 and a
defined output; a Worker failing three times gives no output and the wrapped
error containing the original message. -/
theorem c1_retry_law_witness :
    ((fun i => if i = 0 then Except.error (("boom").data)
        else .ok ((("R").data, 5, 7)) : Nat → Except Str (Str × Nat × Nat)) 1
        = .ok ((("R").data, 5, 7))) ∧
    ((taskExecute (fun n => n) (fun i => if i = 0 then .error (("boom").data)
        else .ok ((("R").data, 5, 7))) none
        { description := [], expectedOutput := [] } 0).1.retryCount = 1 ∧
      (taskExecute (fun n => n) (fun i => if i = 0 then .error (("boom").data)
        else .ok ((("R").data, 5, 7))) none
        { description := [], expectedOutput := [] } 0).1.output = some (("R").data) ∧
      (taskExecute (fun n => n) (fun i => if i = 0 then .error (("boom").data)
        else .ok ((("R").data, 5, 7))) none
        { description := [], expectedOutput := [] } 0).2.2 = .ok (("R").data)) ∧
    ((taskExecute (fun n => n) (fun _ => .error (("bad").data)) none
        { description := [], expectedOutput := [] } 0).1.output = none ∧
      (taskExecute (fun n => n) (fun _ => .error (("bad").data)) none
        { description := [], expectedOutput := [] } 0).2.2
        = .error (taskFailMessage (("bad").data)) ∧
      occursB (("bad").data) (taskFailMessage (("bad").data)) = true) := by
  refine ⟨by decide, ?_, ?_⟩
  · exact c1_retry_law.1 (fun n => n)
      (fun i => if i = 0 then .error (("boom").data) else .ok ((("R").data, 5, 7))) none
      { description := [], expectedOutput := [] } 0 1 (("R").data) 5 7 (by decide)
      (by intro i hi; interval_cases i; exact ⟨("boom").data, by decide⟩) (by decide)
  · exact c1_retry_law.2 (fun n => n) (fun _ => .error (("bad").data)) none
      { description := [], expectedOutput := [] } 0 (("bad").data) (("bad").data) (("bad").data)
      rfl rfl rfl rfl

theorem attemptLoop_context (clock : Nat → Int) (oracle : Nat → Except Str (Str × Nat × Nat)) :
    ∀ (rem : Nat) (t : TaskM) (attempt tick : Nat),
      (attemptLoop clock oracle rem t attempt tick).1.context = t.context := by
  intro rem
  induction rem with
  | zero => intro t attempt tick; rfl
  | succ rem ih =>
      intro t attempt tick
      cases h : oracle attempt with
      | ok r =>
          obtain ⟨res, it, ot⟩ := r
          rw [attemptLoop_ok clock oracle rem t attempt tick res it ot h]
      | error e =>
          by_cases hlt : attempt < DEFAULT_RETRIES - 1
          · rw [attemptLoop_err clock oracle rem t attempt tick e h hlt]
            exact ih _ _ _
          · simp only [attemptLoop, h]
            rw [if_neg hlt]

/-- C2 counterexample: a dependency whose output is the empty string is a
defined output, so the claim's newline-join law predicts the context
`"\n" ++ "A"` for dependency outputs `["", "A"]`; the code's `filter(Boolean)`
drops the empty output and produces `"A"`. -/
theorem c2_counterexample :
    (taskExecute (fun n => (n : Int)) (fun _ => .ok ((("r").data), 1, 1))
        (some [some [], some (("A").data)])
        { description := [], expectedOutput := [] } 0).1.context = ("A").data ∧
    ("A").data ≠ ('\n' :: ("A").data) := by
  exact ⟨by decide, by decide⟩

/-- C2 amended: a Unit with no declared dependency list keeps its initial empty
context; a Unit with a declared dependency list gets, in declared order, the
newline-join of the dependency outputs that are defined and non-empty, with
undefined and empty outputs omitted. -/
theorem c2_dependency_context :
    (∀ (clock : Nat → Int) (oracle : Nat → Except Str (Str × Nat × Nat)) (t : TaskM) (tick : Nat),
        t.context = [] →
        (taskExecute clock oracle none t tick).1.context = []) ∧
    (∀ (clock : Nat → Int) (oracle : Nat → Except Str (Str × Nat × Nat)) (t : TaskM)
        (tick : Nat) (outs : List (Option Str)),
        (taskExecute clock oracle (some outs) t tick).1.context
          = joinLines (outs.filterMap truthyStr)) := by
  constructor
  · intro clock oracle t tick hc
    have h := attemptLoop_context clock oracle DEFAULT_RETRIES (depApply none t) 0 tick
    rw [show taskExecute clock oracle none t tick
          = attemptLoop clock oracle DEFAULT_RETRIES (depApply none t) 0 tick from rfl, h]
    exact hc
  · intro clock oracle t tick outs
    have h := attemptLoop_context clock oracle DEFAULT_RETRIES (depApply (some outs) t) 0 tick
    rw [show taskExecute clock oracle (some outs) t tick
          = attemptLoop clock oracle DEFAULT_RETRIES (depApply (some outs) t) 0 tick from rfl, h]
    rfl

/-- C2 witness: with no dependency list the context stays empty; with
dependency outputs `[none, "B", ""]` the context is exactly `"B"`. -/
theorem c2_dependency_context_witness :
    (({ description := [], expectedOutput := [] } : TaskM).context = [] ∧
      (taskExecute (fun n => (n : Int)) (fun _ => .ok ((("r").data), 1, 1)) none
        { description := [], expectedOutput := [] } 0).1.context = []) ∧
    (taskExecute (fun n => (n : Int)) (fun _ => .ok ((("r").data), 1, 1))
        (some [none, some (("B").data), some []])
        { description := [], expectedOutput := [] } 0).1.context
      = joinLines ([none, some (("B").data), some []].filterMap truthyStr) := by
  refine ⟨⟨rfl, ?_⟩, ?_⟩
  · exact c2_dependency_context.1 (fun n => (n : Int)) (fun _ => .ok ((("r").data), 1, 1))
      { description := [], expectedOutput := [] } 0 rfl
  · exact c2_dependency_context.2 (fun n => (n : Int)) (fun _ => .ok ((("r").data), 1, 1))
      { description := [], expectedOutput := [] } 0 [none, some (("B").data), some []]

/-- C7: Worker state transitions in `Agent.executeTask`: the state is set to
busy on entry; a successful call returns the formatted text with state idle
(and writes the token counts onto the Unit); a failure of the generate step or
of the format step leaves state error and re-raises the same error unchanged. -/
theorem c7_worker_state {α : Type} (gen : Str → Except Str α)
    (fmt : α → Except Str (Str × Nat × Nat)) (ag : AgentM) (t : TaskM) (ctx : Option Str) :
    (agentExecuteTask gen fmt ag t ctx).entryState = .busy ∧
    (∀ e, gen (getTaskPrompt { ag with state := .busy } t ctx) = .error e →
        (agentExecuteTask gen fmt ag t ctx).agent.state = .error ∧
        (agentExecuteTask gen fmt ag t ctx).result = .error e) ∧
    (∀ raw e, gen (getTaskPrompt { ag with state := .busy } t ctx) = .ok raw →
        fmt raw = .error e →
        (agentExecuteTask gen fmt ag t ctx).agent.state = .error ∧
        (agentExecuteTask gen fmt ag t ctx).result = .error e) ∧
    (∀ raw text it ot, gen (getTaskPrompt { ag with state := .busy } t ctx) = .ok raw →
        fmt raw = .ok (text, it, ot) →
        (agentExecuteTask gen fmt ag t ctx).agent.state = .idle ∧
        (agentExecuteTask gen fmt ag t ctx).result = .ok text ∧
        (agentExecuteTask gen fmt ag t ctx).task.inputTokens = it ∧
        (agentExecuteTask gen fmt ag t ctx).task.outputTokens = ot) := by
  refine ⟨?_, ?_, ?_, ?_⟩
  · cases hg : gen (getTaskPrompt { ag with state := .busy } t ctx) with
    | error e => simp [agentExecuteTask, hg]
    | ok raw =>
        cases hf : fmt raw with
        | error e => simp [agentExecuteTask, hg, hf]
        | ok r =>
            obtain ⟨text, it, ot⟩ := r
            simp [agentExecuteTask, hg, hf]
  · intro e hg
    constructor <;> simp [agentExecuteTask, hg]
  · intro raw e hg hf
    constructor <;> simp [agentExecuteTask, hg, hf]
  · intro raw text it ot hg hf
    refine ⟨?_, ?_, ?_, ?_⟩ <;> simp [agentExecuteTask, hg, hf]

/-- C7 witness: with a generate returning a fixed raw value and a formatter
returning fixed text and counts, the call enters busy and ends idle with the
text returned and the counts written. -/
theorem c7_worker_state_witness :
    (agentExecuteTask (fun _ => Except.ok 0) (fun _ => .ok ((("T").data, 1, 2)))
        { role := [], goal := [], background := [] }
        { description := [], expectedOutput := [] } none).entryState = .busy ∧
    ((agentExecuteTask (fun _ => Except.ok 0) (fun _ => .ok ((("T").data, 1, 2)))
        { role := [], goal := [], background := [] }
        { description := [], expectedOutput := [] } none).agent.state = .idle ∧
      (agentExecuteTask (fun _ => Except.ok 0) (fun _ => .ok ((("T").data, 1, 2)))
        { role := [], goal := [], background := [] }
        { description := [], expectedOutput := [] } none).result = .ok (("T").data) ∧
      (agentExecuteTask (fun _ => Except.ok 0) (fun _ => .ok ((("T").data, 1, 2)))
        { role := [], goal := [], background := [] }
        { description := [], expectedOutput := [] } none).task.inputTokens = 1 ∧
      (agentExecuteTask (fun _ => Except.ok 0) (fun _ => .ok ((("T").data, 1, 2)))
        { role := [], goal := [], background := [] }
        { description := [], expectedOutput := [] } none).task.outputTokens = 2) := by
  refine ⟨(c7_worker_state _ _ _ _ _).1, (c7_worker_state _ _ _ _ _).2.2.2 0 (("T").data) 1 2 rfl rfl⟩

/-- C4 counterexample: two failures of the claim as stated.  First, the claim
predicts that `\x7bx\x7d` with `x` in the table resolves to the table value;
when the value is the internal sentinel `__LEFT_BRACE__`, the final restoring
pass rewrites it to a lone brace, so the result is not the value.  Second, the
claim predicts that a placeholder whose key is absent from the table stays
verbatim, but the `key in values` test also sees keys inherited from
`Object.prototype`: `\x7btoString\x7d` over the empty table is replaced by the
stringified inherited method, not left as is. -/
theorem c4_counterexample :
    (fillTemplateString (("{x}").data) [((("x").data), LB)] = ['{'] ∧
      (['{'] : Str) ≠ LB) ∧
    (fillTemplateString (("{toString}").data) []
        = ("function toString() \x7b [native code] \x7d").data ∧
      ("function toString() \x7b [native code] \x7d").data ≠ ("{toString}").data) := by
  exact ⟨⟨by decide, by decide⟩, ⟨by decide, by decide⟩⟩

/-- C4 amended: on templates decomposed into literal segments free of
backslashes, opening braces and underscores, escape pairs, and well-formed
word-character placeholders whose keys are not properties inherited from
`Object.prototype` (the `in` test sees those), and on tables whose values
contain no underscore (so the internal sentinels cannot be forged), resolution
satisfies the claim's law exactly: matched placeholders are replaced by their
table values, unmatched placeholders stay verbatim with their braces, and the
escapes become literal braces regardless of the table. -/
theorem c4_placeholder_resolution (items : List Item) (V : List (Str × Str))
    (ht : wfTemplate items = true) (hv : wfValues V = true) :
    fillTemplateString (assemble items) V = renderSpec V items :=
  fill_renders items V ht hv

/-- C4 witness: the template `Hello, \x7bname\x7d! \x5c\x7bx\x5c\x7d
\x7bmissing\x7d` with table `name = Alice` resolves to
`Hello, Alice! \x7bx\x7d \x7bmissing\x7d`. -/
theorem c4_placeholder_resolution_witness :
    wfTemplate [Item.text (("Hello, ").data), Item.hole (("name").data),
        Item.text (("! ").data), Item.esc true, Item.text (("x").data), Item.esc false,
        Item.text ((" ").data), Item.hole (("missing").data)] = true ∧
    wfValues [((("name").data), (("Alice").data))] = true ∧
    fillTemplateString
        (assemble [Item.text (("Hello, ").data), Item.hole (("name").data),
          Item.text (("! ").data), Item.esc true, Item.text (("x").data), Item.esc false,
          Item.text ((" ").data), Item.hole (("missing").data)])
        [((("name").data), (("Alice").data))]
      = renderSpec [((("name").data), (("Alice").data))]
          [Item.text (("Hello, ").data), Item.hole (("name").data),
            Item.text (("! ").data), Item.esc true, Item.text (("x").data), Item.esc false,
            Item.text ((" ").data), Item.hole (("missing").data)] ∧
    renderSpec [((("name").data), (("Alice").data))]
        [Item.text (("Hello, ").data), Item.hole (("name").data),
          Item.text (("! ").data), Item.esc true, Item.text (("x").data), Item.esc false,
          Item.text ((" ").data), Item.hole (("missing").data)]
      = ("Hello, Alice! \x7bx\x7d \x7bmissing\x7d").data := by
  refine ⟨by decide, by decide, ?_, by decide⟩
  exact c4_placeholder_resolution _ _ (by decide) (by decide)

/-- C10 counterexample: placeholder-shaped text inside a substituted value is
indeed not substituted, but when it contains sentinel text the restoring
passes rewrite it, so it does not appear literally in the result as the claim
states: value `\x7ba__LEFT_BRACE__b\x7d` comes out as `\x7ba\x7bb\x7d`. -/
theorem c10_counterexample :
    fillTemplateString (("{k}").data) [((("k").data), (("{a__LEFT_BRACE__b}").data))]
      = ("\x7ba\x7bb\x7d").data ∧
    occursB (("{a__LEFT_BRACE__b}").data) (("\x7ba\x7bb\x7d").data) = false := by
  exact ⟨by decide, by decide⟩

theorem startsWithL_iff (p : Str) : ∀ s : Str, startsWithL p s = true ↔ ∃ t, s = p ++ t := by
  induction p with
  | nil =>
      intro s
      constructor
      · intro _; exact ⟨s, rfl⟩
      · intro _; rfl
  | cons a p ih =>
      intro s
      cases s with
      | nil =>
          constructor
          · intro h; exact absurd h (by simp [startsWithL])
          · rintro ⟨t, ht⟩; exact absurd ht (by simp)
      | cons c cs =>
          constructor
          · intro h
            simp only [startsWithL, Bool.and_eq_true, decide_eq_true_eq] at h
            obtain ⟨t, ht⟩ := (ih cs).mp h.2
            exact ⟨t, by simp [h.1, ht]⟩
          · rintro ⟨t, ht⟩
            rw [List.cons_append] at ht
            injection ht with h1 h2
            simp only [startsWithL, Bool.and_eq_true, decide_eq_true_eq]
            exact ⟨h1.symm, (ih cs).mpr ⟨t, h2⟩⟩

theorem occursB_iff (p : Str) : ∀ s : Str,
    occursB p s = true ↔ ∃ pre post, s = pre ++ (p ++ post) := by
  intro s
  induction s with
  | nil =>
      simp only [occursB, startsWithL_iff]
      constructor
      · rintro ⟨t, ht⟩; exact ⟨[], t, ht⟩
      · rintro ⟨pre, post, h⟩
        rcases List.append_eq_nil.mp h.symm with ⟨_, hrest⟩
        exact ⟨post, hrest.symm⟩
  | cons c cs ih =>
      simp only [occursB, Bool.or_eq_true, startsWithL_iff, ih]
      constructor
      · rintro (⟨t, ht⟩ | ⟨pre, post, hp⟩)
        · exact ⟨[], t, ht⟩
        · exact ⟨c :: pre, post, by rw [List.cons_append, ← hp]⟩
      · rintro ⟨pre, post, hp⟩
        cases pre with
        | nil => exact Or.inl ⟨post, by simpa using hp⟩
        | cons x pre =>
            rw [List.cons_append] at hp
            injection hp with h1 h2
            exact Or.inr ⟨pre, post, h2⟩

theorem occursB_trans (p v s : Str) (h1 : occursB p v = true) (h2 : occursB v s = true) :
    occursB p s = true := by
  rw [occursB_iff] at h1 h2 ⊢
  obtain ⟨a1, b1, hv⟩ := h1
  obtain ⟨a2, b2, hs⟩ := h2
  refine ⟨a2 ++ a1, b1 ++ b2, ?_⟩
  rw [hs, hv]
  simp [List.append_assoc]

theorem occursB_append_right (p s t : Str) (h : occursB p t = true) :
    occursB p (s ++ t) = true := by
  induction s with
  | nil => exact h
  | cons c s ih =>
      rw [List.cons_append]
      simp only [occursB, Bool.or_eq_true]
      exact Or.inr ih

theorem renderSpec_hole_occurs (V : List (Str × Str)) :
    ∀ (items : List Item) (k v : Str), Item.hole k ∈ items → lookupC V k = some v →
      occursB v (renderSpec V items) = true := by
  intro items
  induction items with
  | nil => intro k v h _; exact absurd h (List.not_mem_nil _)
  | cons it rest ih =>
      intro k v hmem hlk
      rcases List.mem_cons.mp hmem with heq | hmem2
      · cases heq
        simp only [renderSpec, hlk]
        rw [occursB_iff]
        exact ⟨[], renderSpec V rest, rfl⟩
      · have h2 := ih k v hmem2 hlk
        cases it with
        | text s =>
            simp only [renderSpec]
            exact occursB_append_right v s _ h2
        | esc left =>
            cases left with
            | true =>
                simp only [renderSpec, occursB, Bool.or_eq_true]
                exact Or.inr h2
            | false =>
                simp only [renderSpec, occursB, Bool.or_eq_true]
                exact Or.inr h2
        | hole kk =>
            cases hLk : lookupC V kk with
            | some vv =>
                simp only [renderSpec, hLk]
                exact occursB_append_right v vv _ h2
            | none =>
                have hA : occursB v ('}' :: renderSpec V rest) = true := by
                  simp only [occursB, Bool.or_eq_true]
                  exact Or.inr h2
                have hB : occursB v (kk ++ '}' :: renderSpec V rest) = true :=
                  occursB_append_right v kk _ hA
                simp only [renderSpec, hLk, occursB, Bool.or_eq_true]
                exact Or.inr hB

/-- C10 amended: substitution is single-pass over the original template: on the
well-formed fragment, every substituted value is emitted into the result
verbatim, so placeholder-shaped text `\x7bj\x7d` sitting anywhere inside any
substituted value appears literally (as a contiguous substring) in the output
and is never itself substituted, whatever the surrounding template is and
whether or not `j` is a key of the table (sentinel-free values assumed). -/
theorem c10_single_pass (items : List Item) (V : List (Str × Str)) (k a j b : Str)
    (ht : wfTemplate items = true) (hv : wfValues V = true)
    (hmem : Item.hole k ∈ items)
    (hlk : lookupC V k = some (a ++ ('{' :: (j ++ '}' :: b)))) :
    occursB ('{' :: (j ++ ['}'])) (fillTemplateString (assemble items) V) = true := by
  rw [fill_renders items V ht hv]
  have h1 : occursB ('{' :: (j ++ ['}'])) (a ++ ('{' :: (j ++ '}' :: b))) = true := by
    rw [occursB_iff]
    exact ⟨a, b, by simp⟩
  exact occursB_trans _ _ _ h1 (renderSpec_hole_occurs V items k _ hmem hlk)

/-- C10 witness: in the template `x\x7bk\x7dy` with table `k = A\x7bj\x7dB` and
`j = X`, the value of `k` is emitted verbatim: the output is `xA\x7bj\x7dBy`,
so the inner `\x7bj\x7d` appears literally and is not replaced by `X`. -/
theorem c10_single_pass_witness :
    wfTemplate [Item.text (("x").data), Item.hole (("k").data), Item.text (("y").data)] = true ∧
    wfValues [((("k").data), (("A{j}B").data)), ((("j").data), (("X").data))] = true ∧
    Item.hole (("k").data)
      ∈ [Item.text (("x").data), Item.hole (("k").data), Item.text (("y").data)] ∧
    lookupC [((("k").data), (("A{j}B").data)), ((("j").data), (("X").data))] (("k").data)
      = some ((("A").data) ++ ('{' :: ((("j").data) ++ '}' :: (("B").data)))) ∧
    occursB ('{' :: ((("j").data) ++ ['}']))
        (fillTemplateString
          (assemble [Item.text (("x").data), Item.hole (("k").data), Item.text (("y").data)])
          [((("k").data), (("A{j}B").data)), ((("j").data), (("X").data))]) = true ∧
    fillTemplateString
        (assemble [Item.text (("x").data), Item.hole (("k").data), Item.text (("y").data)])
        [((("k").data), (("A{j}B").data)), ((("j").data), (("X").data))]
      = ("xA\x7bj\x7dBy").data := by
  refine ⟨by decide, by decide, by decide, by decide, ?_, by decide⟩
  exact c10_single_pass
    [Item.text (("x").data), Item.hole (("k").data), Item.text (("y").data)]
    [((("k").data), (("A{j}B").data)), ((("j").data), (("X").data))]
    (("k").data) (("A").data) (("j").data) (("B").data)
    (by decide) (by decide) (by decide) (by decide)

theorem jsOrStr_underscore_free (s : Str) (h : s.all (fun c => c ≠ '_') = true) :
    (jsOrStr s []).all (fun c => c ≠ '_') = true := by
  unfold jsOrStr
  by_cases hb : s = []
  · rw [if_pos hb]; rfl
  · rw [if_neg hb]; exact h

theorem getAgentPersonality_eq (ag : AgentM)
    (hrole : ag.role.all (fun c => c ≠ '_') = true)
    (hgoal : ag.goal.all (fun c => c ≠ '_') = true)
    (hbg : ag.background.all (fun c => c ≠ '_') = true) :
    getAgentPersonality ag
      = ("You are a ").data ++ (ag.role ++ ((". ").data ++ (jsOrStr ag.background []
          ++ ((".\nYour goal is: ").data ++ (ag.goal ++ (".").data))))) := by
  have hw : wfValues [(("role").data, ag.role), (("goal").data, ag.goal),
      (("background").data, jsOrStr ag.background [])] = true := by
    simp only [wfValues, List.all_cons, List.all_nil, Bool.and_eq_true, Bool.and_true]
    exact ⟨hrole, hgoal, jsOrStr_underscore_free ag.background hbg⟩
  have ha : assemble [Item.text (("You are a ").data), Item.hole (("role").data),
      Item.text ((". ").data), Item.hole (("background").data),
      Item.text ((".\nYour goal is: ").data), Item.hole (("goal").data),
      Item.text ((".").data)] = personalityTemplate := by decide
  have h := fill_renders [Item.text (("You are a ").data), Item.hole (("role").data),
      Item.text ((". ").data), Item.hole (("background").data),
      Item.text ((".\nYour goal is: ").data), Item.hole (("goal").data),
      Item.text ((".").data)]
    [(("role").data, ag.role), (("goal").data, ag.goal),
      (("background").data, jsOrStr ag.background [])] (by decide) hw
  rw [ha] at h
  show fillTemplateString personalityTemplate
      [(("role").data, ag.role), (("goal").data, ag.goal),
        (("background").data, jsOrStr ag.background [])] = _
  rw [h]
  show ("You are a ").data ++ (ag.role ++ ((". ").data ++ (jsOrStr ag.background []
      ++ ((".\nYour goal is: ").data ++ (ag.goal ++ ((".").data ++ [])))))) = _
  rw [List.append_nil]

theorem taskPrompt_underscore_free (t : TaskM)
    (hd : t.description.all (fun c => c ≠ '_') = true)
    (he : t.expectedOutput.all (fun c => c ≠ '_') = true) :
    (t.prompt).all (fun c => c ≠ '_') = true := by
  show (t.description ++ ('\n'
      :: ((("Your final response must follow the following guidelines: ").data
            ++ t.expectedOutput)
          ++ (". Your answer must include the full content without summarizing.").data))).all
      (fun c => c ≠ '_') = true
  rw [List.all_append, List.all_cons, List.all_append, List.all_append, hd, he]
  decide

theorem getTaskPromptWithContext_eq (t : TaskM) (ctx : Str)
    (hp : (t.prompt).all (fun c => c ≠ '_') = true)
    (hc : ctx.all (fun c => c ≠ '_') = true) :
    getTaskPromptWithContext t ctx
      = t.prompt ++ (("\n\nThis is the context you").data
          ++ (apos :: (("re working with:\n").data ++ ctx))) := by
  have hw : wfValues [(("taskPrompt").data, t.prompt), (("context").data, ctx)] = true := by
    simp only [wfValues, List.all_cons, List.all_nil, Bool.and_eq_true, Bool.and_true]
    exact ⟨hp, hc⟩
  have ha : assemble [Item.hole (("taskPrompt").data),
      Item.text ((("\n\nThis is the context you").data ++ apos :: ("re working with:\n").data)),
      Item.hole (("context").data)] = taskContextTemplate := by decide
  have h := fill_renders [Item.hole (("taskPrompt").data),
      Item.text ((("\n\nThis is the context you").data ++ apos :: ("re working with:\n").data)),
      Item.hole (("context").data)]
    [(("taskPrompt").data, t.prompt), (("context").data, ctx)] (by decide) hw
  rw [ha] at h
  show fillTemplateString taskContextTemplate
      [(("taskPrompt").data, t.prompt), (("context").data, ctx)] = _
  rw [h]
  show t.prompt ++ (("\n\nThis is the context you").data
      ++ (apos :: (("re working with:\n").data ++ (ctx ++ [])))) = _
  rw [List.append_nil]

/-- C8 counterexample: the claim quotes the personality template with a space
before `Your goal is:`; the source template has a newline there, so the built
personality differs from the claim's quoted form. -/
theorem c8_counterexample :
    getAgentPersonality { role := ("R").data, goal := ("G").data, background := ("B").data }
      = ("You are a R. B.\nYour goal is: G.").data ∧
    ("You are a R. B.\nYour goal is: G.").data ≠ ("You are a R. B. Your goal is: G.").data := by
  exact ⟨by decide, by decide⟩

/-- C8 amended: the prompt handed to the Model client is the personality
template `You are a \x7brole\x7d. \x7bbackground\x7d.` + newline +
`Your goal is: \x7bgoal\x7d.` with the Worker's identity substituted, then a
newline, then the Unit's composed prompt (description, newline, the fixed
expected-output sentence) when the dependency context is empty or absent, or
the Unit's prompt plus the fixed two-part context section when the context is
non-empty.  Identity, Unit texts and context are assumed sentinel-safe
(underscore-free). -/
theorem c8_prompt_composition (ag : AgentM) (t : TaskM) (ctx : Str)
    (hrole : ag.role.all (fun c => c ≠ '_') = true)
    (hgoal : ag.goal.all (fun c => c ≠ '_') = true)
    (hbg : ag.background.all (fun c => c ≠ '_') = true)
    (hd : t.description.all (fun c => c ≠ '_') = true)
    (he : t.expectedOutput.all (fun c => c ≠ '_') = true)
    (hc : ctx.all (fun c => c ≠ '_') = true) :
    (getTaskPrompt ag t none = getAgentPersonality ag ++ '\n' :: t.prompt) ∧
    (getTaskPrompt ag t (some []) = getAgentPersonality ag ++ '\n' :: t.prompt) ∧
    (ctx ≠ [] →
      getTaskPrompt ag t (some ctx)
        = getAgentPersonality ag ++ '\n'
            :: (t.prompt ++ (("\n\nThis is the context you").data
                ++ (apos :: (("re working with:\n").data ++ ctx))))) ∧
    getAgentPersonality ag
      = ("You are a ").data ++ (ag.role ++ ((". ").data ++ (jsOrStr ag.background []
          ++ ((".\nYour goal is: ").data ++ (ag.goal ++ (".").data))))) ∧
    t.prompt = t.description ++ '\n'
        :: ((("Your final response must follow the following guidelines: ").data
              ++ t.expectedOutput)
            ++ (". Your answer must include the full content without summarizing.").data) := by
  refine ⟨rfl, rfl, ?_, getAgentPersonality_eq ag hrole hgoal hbg, rfl⟩
  intro hne
  have hctxbr : getTaskPrompt ag t (some ctx)
      = getAgentPersonality ag ++ '\n' :: getTaskPromptWithContext t ctx := by
    show getAgentPersonality ag ++ '\n'
        :: (if ctx = [] then t.prompt else getTaskPromptWithContext t ctx) = _
    rw [if_neg hne]
  rw [hctxbr,
      getTaskPromptWithContext_eq t ctx (taskPrompt_underscore_free t hd he) hc]

/-- C8 witness: a concrete Worker and Unit with a non-empty context produce
exactly the composed prompt of the amended claim. -/
theorem c8_prompt_composition_witness :
    (("C").data : Str) ≠ [] ∧
    getTaskPrompt { role := ("R").data, goal := ("G").data, background := ("B").data }
        { description := ("D").data, expectedOutput := ("E").data } (some (("C").data))
      = getAgentPersonality
            { role := ("R").data, goal := ("G").data, background := ("B").data }
          ++ '\n'
          :: (({ description := ("D").data, expectedOutput := ("E").data } : TaskM).prompt
              ++ (("\n\nThis is the context you").data
                  ++ (apos :: (("re working with:\n").data ++ ("C").data)))) := by
  refine ⟨by decide, ?_⟩
  exact (c8_prompt_composition
      { role := ("R").data, goal := ("G").data, background := ("B").data }
      { description := ("D").data, expectedOutput := ("E").data } (("C").data)
      (by decide) (by decide) (by decide) (by decide) (by decide) (by decide)).2.2.1
    (by decide)

theorem taskExecute_fails (clock : Nat → Int) (o : Nat → Except Str (Str × Nat × Nat))
    (depOuts : Option (List (Option Str))) (t : TaskM) (tick : Nat) (e2 : Str)
    (h0 : ∃ e, o 0 = .error e) (h1 : ∃ e, o 1 = .error e) (h2 : o 2 = .error e2) :
    taskExecute clock o depOuts t tick
      = ({ depApply depOuts t with retryCount := 2 }, tick + 3, .error (taskFailMessage e2)) := by
  obtain ⟨e0, h0⟩ := h0
  obtain ⟨e1, h1⟩ := h1
  have s1 : taskExecute clock o depOuts t tick =
      attemptLoop clock o 2 { depApply depOuts t with retryCount := 0 } 1 (tick + 1) :=
    attemptLoop_err clock o 2 (depApply depOuts t) 0 tick e0 h0 (by decide)
  have s2 : attemptLoop clock o 2 { depApply depOuts t with retryCount := 0 } 1 (tick + 1)
      = attemptLoop clock o 1 { depApply depOuts t with retryCount := 1 } 2 (tick + 2) :=
    attemptLoop_err clock o 1 { depApply depOuts t with retryCount := 0 }
      1 (tick + 1) e1 h1 (by decide)
  have s3 : attemptLoop clock o 1 { depApply depOuts t with retryCount := 1 } 2 (tick + 2)
      = ({ depApply depOuts t with retryCount := 2 }, tick + 3, .error (taskFailMessage e2)) :=
    attemptLoop_err_last clock o 0 { depApply depOuts t with retryCount := 1 } (tick + 2) e2 h2
  exact (s1.trans s2).trans s3

theorem taskExecute_wins (clock : Nat → Int) (o : Nat → Except Str (Str × Nat × Nat))
    (depOuts : Option (List (Option Str))) (t : TaskM) (tick : Nat) (h : oracleWins o) :
    ∃ t' tick' out, taskExecute clock o depOuts t tick = (t', tick', .ok out) ∧
      t'.output = some out ∧ tick < tick' := by
  obtain ⟨k, hk, hfail, ⟨⟨res, it, ot⟩, hok⟩⟩ := h
  have hk3 : k < 3 := hk
  interval_cases k
  · refine ⟨_, tick + 2, res,
      attemptLoop_ok clock o 2 (depApply depOuts t) 0 tick res it ot hok, rfl, by omega⟩
  · obtain ⟨e0, h0⟩ := hfail 0 (by omega)
    have s1 : taskExecute clock o depOuts t tick =
        attemptLoop clock o 2 { depApply depOuts t with retryCount := 0 } 1 (tick + 1) :=
      attemptLoop_err clock o 2 (depApply depOuts t) 0 tick e0 h0 (by decide)
    have s2 := attemptLoop_ok clock o 1 { depApply depOuts t with retryCount := 0 }
      1 (tick + 1) res it ot hok
    exact ⟨_, tick + 3, res, s1.trans s2, rfl, by omega⟩
  · obtain ⟨e0, h0⟩ := hfail 0 (by omega)
    obtain ⟨e1, h1⟩ := hfail 1 (by omega)
    have s1 : taskExecute clock o depOuts t tick =
        attemptLoop clock o 2 { depApply depOuts t with retryCount := 0 } 1 (tick + 1) :=
      attemptLoop_err clock o 2 (depApply depOuts t) 0 tick e0 h0 (by decide)
    have s2 : attemptLoop clock o 2 { depApply depOuts t with retryCount := 0 } 1 (tick + 1)
        = attemptLoop clock o 1 { depApply depOuts t with retryCount := 1 } 2 (tick + 2) :=
      attemptLoop_err clock o 1 { depApply depOuts t with retryCount := 0 }
        1 (tick + 1) e1 h1 (by decide)
    have s3 := attemptLoop_ok clock o 0 { depApply depOuts t with retryCount := 1 }
      2 (tick + 2) res it ot hok
    exact ⟨_, tick + 4, res, (s1.trans s2).trans s3, rfl, by omega⟩

theorem runTasks_last_ok (clock : Nat → Int) (oracles : Nat → Nat → Except Str (Str × Nat × Nat))
    (wfStart : Int) (processed : List TaskM) (t : TaskM) (idx tick : Nat) (acc : WorkflowM)
    (t' : TaskM) (tick' : Nat) (out : Str)
    (h : taskExecute clock (oracles idx)
        (t.depIdxs.map (fun idxs => idxs.map
          (fun i => (((processed ++ t :: []).get? i).bind TaskM.output)))) t tick
        = (t', tick', .ok out)) :
    runTasks clock oracles wfStart processed (t :: []) idx tick acc =
      ({ acc with
          tasks := processed ++ [t'],
          inputTokens := acc.inputTokens + t'.inputTokens,
          outputTokens := acc.outputTokens + t'.outputTokens,
          endTime := clock tick',
          totalTime := clock tick' - wfStart }, .ok out) := by
  simp only [runTasks, h]

theorem runTasks_step_ok (clock : Nat → Int) (oracles : Nat → Nat → Except Str (Str × Nat × Nat))
    (wfStart : Int) (processed : List TaskM) (t p : TaskM) (rest : List TaskM)
    (idx tick : Nat) (acc : WorkflowM) (t' : TaskM) (tick' : Nat) (out : Str)
    (h : taskExecute clock (oracles idx)
        (t.depIdxs.map (fun idxs => idxs.map
          (fun i => (((processed ++ t :: p :: rest).get? i).bind TaskM.output)))) t tick
        = (t', tick', .ok out)) :
    runTasks clock oracles wfStart processed (t :: p :: rest) idx tick acc =
      runTasks clock oracles wfStart (processed ++ [t']) (p :: rest) (idx + 1) tick'
        { acc with
            inputTokens := acc.inputTokens + t'.inputTokens,
            outputTokens := acc.outputTokens + t'.outputTokens } := by
  simp only [runTasks, h]

theorem runTasks_step_err (clock : Nat → Int) (oracles : Nat → Nat → Except Str (Str × Nat × Nat))
    (wfStart : Int) (processed : List TaskM) (t : TaskM) (rest : List TaskM)
    (idx tick : Nat) (acc : WorkflowM) (t' : TaskM) (tick' : Nat) (e : Str)
    (h : taskExecute clock (oracles idx)
        (t.depIdxs.map (fun idxs => idxs.map
          (fun i => (((processed ++ t :: rest).get? i).bind TaskM.output)))) t tick
        = (t', tick', .error e)) :
    runTasks clock oracles wfStart processed (t :: rest) idx tick acc =
      ({ acc with tasks := processed ++ t' :: rest }, .error e) := by
  simp only [runTasks, h]

theorem runTasks_all_win (clock : Nat → Int) (oracles : Nat → Nat → Except Str (Str × Nat × Nat))
    (wfStart : Int) :
    ∀ (pending processed : List TaskM) (idx tick : Nat) (acc : WorkflowM),
      pending ≠ [] →
      (∀ j, j < pending.length → oracleWins (oracles (idx + j))) →
      ∃ (W : WorkflowM) (ts : List TaskM) (out : Str) (tickEnd : Nat),
        runTasks clock oracles wfStart processed pending idx tick acc = (W, .ok out) ∧
        ts.length = pending.length ∧
        W.tasks = processed ++ ts ∧
        W.inputTokens = acc.inputTokens + (ts.map TaskM.inputTokens).sum ∧
        W.outputTokens = acc.outputTokens + (ts.map TaskM.outputTokens).sum ∧
        W.startTime = acc.startTime ∧
        W.endTime = clock tickEnd ∧
        W.totalTime = clock tickEnd - wfStart ∧
        tick < tickEnd ∧
        ts.getLast?.bind TaskM.output = some out := by
  intro pending
  induction pending with
  | nil => intro processed idx tick acc hne _; exact absurd rfl hne
  | cons t rest ih =>
      intro processed idx tick acc _ hwin
      have hw0 : oracleWins (oracles idx) := by
        have := hwin 0 (by simp)
        simpa using this
      cases rest with
      | nil =>
          obtain ⟨t', tick', out, hexec, hout, htick⟩ :=
            taskExecute_wins clock (oracles idx)
              (t.depIdxs.map (fun idxs => idxs.map
                (fun i => (((processed ++ t :: []).get? i).bind TaskM.output)))) t tick hw0
          have key := runTasks_last_ok clock oracles wfStart processed t idx tick acc
            t' tick' out hexec
          refine ⟨_, [t'], out, tick', key, rfl, rfl, by simp, by simp, rfl, rfl, rfl, htick, ?_⟩
          simp [List.getLast?, hout]
      | cons p rest' =>
          obtain ⟨t', tick', out, hexec, _, htick⟩ :=
            taskExecute_wins clock (oracles idx)
              (t.depIdxs.map (fun idxs => idxs.map
                (fun i => (((processed ++ t :: p :: rest').get? i).bind TaskM.output)))) t tick hw0
          have key := runTasks_step_ok clock oracles wfStart processed t p rest' idx tick acc
            t' tick' out hexec
          obtain ⟨W, ts, out2, tickEnd, hrun, hlen, htasks, hin, hout2, hstart, hend, htot,
              ht2, hlast⟩ :=
            ih (processed ++ [t']) (idx + 1) tick'
              { acc with
                  inputTokens := acc.inputTokens + t'.inputTokens,
                  outputTokens := acc.outputTokens + t'.outputTokens }
              (by simp)
              (by
                intro j hj
                rw [show idx + 1 + j = idx + (j + 1) from by omega]
                exact hwin (j + 1) (by simpa using Nat.succ_lt_succ hj))
          refine ⟨W, t' :: ts, out2, tickEnd, key.trans hrun, by simpa using hlen, ?_, ?_, ?_,
            hstart, hend, htot, htick.trans ht2, ?_⟩
          · rw [htasks, List.append_assoc]
            rfl
          · rw [hin]
            simp [Nat.add_assoc]
          · rw [hout2]
            simp [Nat.add_assoc]
          · cases ts with
            | nil => simp at hlen
            | cons a ts' =>
                rw [List.getLast?_cons_cons]
                exact hlast

theorem runTasks_fail_at (clock : Nat → Int) (oracles : Nat → Nat → Except Str (Str × Nat × Nat))
    (wfStart : Int) :
    ∀ (i : Nat) (pending processed : List TaskM) (idx tick : Nat) (acc : WorkflowM) (e2 : Str),
      i < pending.length →
      (∀ j, j < i → oracleWins (oracles (idx + j))) →
      (∃ e, oracles (idx + i) 0 = .error e) →
      (∃ e, oracles (idx + i) 1 = .error e) →
      oracles (idx + i) 2 = .error e2 →
      ∃ (W : WorkflowM) (ts : List TaskM) (tfail : TaskM),
        runTasks clock oracles wfStart processed pending idx tick acc
          = (W, .error (taskFailMessage e2)) ∧
        ts.length = i ∧
        W.tasks = processed ++ (ts ++ tfail :: pending.drop (i + 1)) ∧
        tfail.output = (pending.get? i).bind TaskM.output ∧
        W.inputTokens = acc.inputTokens + (ts.map TaskM.inputTokens).sum ∧
        W.outputTokens = acc.outputTokens + (ts.map TaskM.outputTokens).sum ∧
        W.startTime = acc.startTime ∧
        W.endTime = acc.endTime ∧
        W.totalTime = acc.totalTime := by
  intro i
  induction i with
  | zero =>
      intro pending processed idx tick acc e2 hi hwin h0 h1 h2
      cases pending with
      | nil => simp at hi
      | cons t rest =>
          rw [Nat.add_zero] at h0 h1 h2
          have hexec := taskExecute_fails clock (oracles idx)
            (t.depIdxs.map (fun idxs => idxs.map
              (fun i => (((processed ++ t :: rest).get? i).bind TaskM.output)))) t tick e2
            h0 h1 h2
          have key := runTasks_step_err clock oracles wfStart processed t rest idx tick acc
            _ _ _ hexec
          refine ⟨_, [],
            { depApply (t.depIdxs.map (fun idxs => idxs.map
                (fun i => (((processed ++ t :: rest).get? i).bind TaskM.output)))) t with
              retryCount := 2 },
            key, rfl, by simp, by simp [depApply_output], by simp, by simp, rfl, rfl, rfl⟩
  | succ i ih =>
      intro pending processed idx tick acc e2 hi hwin h0 h1 h2
      cases pending with
      | nil => simp at hi
      | cons t rest =>
          cases rest with
          | nil => simp at hi
          | cons p rest' =>
              have hw0 : oracleWins (oracles idx) := by
                have := hwin 0 (by omega)
                simpa using this
              obtain ⟨t', tick', out, hexec, _, _⟩ :=
                taskExecute_wins clock (oracles idx)
                  (t.depIdxs.map (fun idxs => idxs.map
                    (fun i => (((processed ++ t :: p :: rest').get? i).bind TaskM.output))))
                  t tick hw0
              have key := runTasks_step_ok clock oracles wfStart processed t p rest' idx tick acc
                t' tick' out hexec
              obtain ⟨W, ts, tfail, hrun, hlen, htasks, hfo, hin, hout, hstart, hend, htot⟩ :=
                ih (p :: rest') (processed ++ [t']) (idx + 1) tick'
                  { acc with
                      inputTokens := acc.inputTokens + t'.inputTokens,
                      outputTokens := acc.outputTokens + t'.outputTokens }
                  e2 (by simpa using Nat.lt_of_succ_lt_succ (by simpa using hi))
                  (by
                    intro j hj
                    rw [show idx + 1 + j = idx + (j + 1) from by omega]
                    exact hwin (j + 1) (by omega))
                  (by rwa [show idx + 1 + i = idx + (i + 1) from by omega])
                  (by rwa [show idx + 1 + i = idx + (i + 1) from by omega])
                  (by rwa [show idx + 1 + i = idx + (i + 1) from by omega])
              refine ⟨W, t' :: ts, tfail, key.trans hrun, by simpa using hlen, ?_, hfo, ?_, ?_,
                hstart, hend, htot⟩
              · rw [htasks, List.append_assoc]
                rfl
              · rw [hin]
                simp [Nat.add_assoc]
              · rw [hout]
                simp [Nat.add_assoc]

theorem initiate_eq (clock : Nat → Int) (oracles : Nat → Nat → Except Str (Str × Nat × Nat))
    (wf : WorkflowM) (input : Option (List (Str × Str))) :
    initiate clock oracles wf input
      = runTasks clock oracles (clock 0) [] (resolveWorkflow input wf).tasks 0 1
          { resolveWorkflow input wf with startTime := clock 0 } := rfl

theorem resolveWorkflow_inputTokens (input : Option (List (Str × Str))) (wf : WorkflowM) :
    (resolveWorkflow input wf).inputTokens = wf.inputTokens := by
  cases input <;> rfl

theorem resolveWorkflow_outputTokens (input : Option (List (Str × Str))) (wf : WorkflowM) :
    (resolveWorkflow input wf).outputTokens = wf.outputTokens := by
  cases input <;> rfl

theorem resolveWorkflow_length (input : Option (List (Str × Str))) (wf : WorkflowM) :
    (resolveWorkflow input wf).tasks.length = wf.tasks.length := by
  cases input <;> simp [resolveWorkflow]

/-- C5: a Workflow with an empty Unit list executes nothing and `initiate`
rejects with the dedicated completion error, for any input table. -/
theorem c5_empty_rejects (clock : Nat → Int)
    (oracles : Nat → Nat → Except Str (Str × Nat × Nat)) (wf : WorkflowM)
    (input : Option (List (Str × Str))) (h : wf.tasks = []) :
    (initiate clock oracles wf input).2 = .error (("Workflow failed to complete").data) ∧
    (initiate clock oracles wf input).1.tasks = [] := by
  have ht : (resolveWorkflow input wf).tasks = [] := by
    cases input with
    | none => exact h
    | some inp => simp [resolveWorkflow, h]
  rw [initiate_eq, ht]
  exact ⟨rfl, rfl⟩

/-- C5 witness: the empty workflow rejects with the dedicated error even when an
input table is supplied. -/
theorem c5_empty_rejects_witness :
    (initiate (fun n => (n : Int)) (fun _ _ => .ok (([], 0, 0)))
        { tasks := [], agents := [] } (some [((("k").data), (("v").data))])).2
      = .error (("Workflow failed to complete").data) ∧
    (initiate (fun n => (n : Int)) (fun _ _ => .ok (([], 0, 0)))
        { tasks := [], agents := [] } (some [((("k").data), (("v").data))])).1.tasks = [] := by
  exact c5_empty_rejects (fun n => (n : Int)) (fun _ _ => .ok (([], 0, 0)))
    { tasks := [], agents := [] } (some [((("k").data), (("v").data))]) rfl

/-- C3: a Workflow with at least one Unit whose every Unit execution succeeds
within the retry budget completes with the output of the structurally last
Unit, accumulates exactly the sums of the Units' token fields, and records
`totalTime = endTime - startTime > 0` (for a strictly increasing clock and
fresh zero counters). -/
theorem c3_success_aggregation (clock : Nat → Int)
    (oracles : Nat → Nat → Except Str (Str × Nat × Nat)) (wf : WorkflowM)
    (input : Option (List (Str × Str)))
    (hne : wf.tasks ≠ [])
    (hin : wf.inputTokens = 0) (hout : wf.outputTokens = 0)
    (hwin : ∀ j, j < wf.tasks.length → oracleWins (oracles j))
    (hmono : StrictMono clock) :
    ∃ (W : WorkflowM) (out : Str),
      initiate clock oracles wf input = (W, .ok out) ∧
      W.tasks.length = wf.tasks.length ∧
      W.inputTokens = (W.tasks.map TaskM.inputTokens).sum ∧
      W.outputTokens = (W.tasks.map TaskM.outputTokens).sum ∧
      W.totalTime = W.endTime - W.startTime ∧
      0 < W.totalTime ∧
      W.tasks.getLast?.bind TaskM.output = some out := by
  have hpne : (resolveWorkflow input wf).tasks ≠ [] := by
    intro e
    apply hne
    have := resolveWorkflow_length input wf
    rw [e] at this
    exact List.eq_nil_of_length_eq_zero this.symm
  obtain ⟨W, ts, out, tickEnd, hrun, hlenTs, htasks, hinW, houtW, hstart, hend, htot, htick,
      hlast⟩ :=
    runTasks_all_win clock oracles (clock 0) (resolveWorkflow input wf).tasks [] 0 1
      { resolveWorkflow input wf with startTime := clock 0 } hpne
      (fun j hj => by
        have hj' : j < wf.tasks.length := by rwa [resolveWorkflow_length input wf] at hj
        simpa using hwin j hj')
  have htasks' : W.tasks = ts := by simpa using htasks
  refine ⟨W, out, ?_, ?_, ?_, ?_, ?_, ?_, ?_⟩
  · rw [initiate_eq]
    exact hrun
  · rw [htasks', hlenTs, resolveWorkflow_length]
  · rw [hinW, htasks']
    have : ({ resolveWorkflow input wf with startTime := clock 0 } : WorkflowM).inputTokens
        = wf.inputTokens := resolveWorkflow_inputTokens input wf
    rw [this, hin, Nat.zero_add]
  · rw [houtW, htasks']
    have : ({ resolveWorkflow input wf with startTime := clock 0 } : WorkflowM).outputTokens
        = wf.outputTokens := resolveWorkflow_outputTokens input wf
    rw [this, hout, Nat.zero_add]
  · rw [htot, hend, hstart]
  · rw [htot]
    have h0t : clock 0 < clock tickEnd := hmono (by omega)
    omega
  · rw [htasks']
    exact hlast

/-- C3 witness: one Unit, an oracle that always succeeds with tokens 3/4, and
the identity clock: the run returns the Unit's output with summed tokens and a
positive total time. -/
theorem c3_success_aggregation_witness :
    (({ tasks := [{ description := ("d").data, expectedOutput := ("e").data }],
        agents := [] } : WorkflowM).tasks ≠ []) ∧
    ∃ (W : WorkflowM) (out : Str),
      initiate (fun n => (n : Int)) (fun _ _ => .ok ((("R").data, 3, 4)))
          { tasks := [{ description := ("d").data, expectedOutput := ("e").data }],
            agents := [] } none = (W, .ok out) ∧
      W.tasks.length = 1 ∧
      W.inputTokens = (W.tasks.map TaskM.inputTokens).sum ∧
      W.outputTokens = (W.tasks.map TaskM.outputTokens).sum ∧
      W.totalTime = W.endTime - W.startTime ∧
      0 < W.totalTime ∧
      W.tasks.getLast?.bind TaskM.output = some out := by
  refine ⟨by simp, ?_⟩
  exact c3_success_aggregation (fun n => (n : Int)) (fun _ _ => .ok ((("R").data, 3, 4)))
    { tasks := [{ description := ("d").data, expectedOutput := ("e").data }], agents := [] }
    none (by simp) rfl rfl
    (fun j _ => ⟨0, by decide, fun i hi => absurd hi (Nat.not_lt_zero i),
      ⟨((("R").data, 3, 4)), rfl⟩⟩)
    (fun a b hab => by
      show (a : Int) < (b : Int)
      exact_mod_cast hab)

theorem resolveWorkflow_endTime (input : Option (List (Str × Str))) (wf : WorkflowM) :
    (resolveWorkflow input wf).endTime = wf.endTime := by
  cases input <;> rfl

theorem resolveWorkflow_totalTime (input : Option (List (Str × Str))) (wf : WorkflowM) :
    (resolveWorkflow input wf).totalTime = wf.totalTime := by
  cases input <;> rfl

/-- C6: when the Units before position `i` succeed and the Unit at `i` fails on
all three attempts, `initiate` rejects with exactly the task-level wrapped
error, the Units after `i` keep their pre-loop states (they never execute, and
the failing Unit's `output` is also untouched), and the accumulated token
totals are exactly the sums over the `i` completed Units; no completion
bookkeeping (endTime/totalTime) happens. -/
theorem c6_failfast (clock : Nat → Int)
    (oracles : Nat → Nat → Except Str (Str × Nat × Nat)) (wf : WorkflowM)
    (input : Option (List (Str × Str))) (i : Nat) (e2 : Str)
    (hi : i < wf.tasks.length)
    (hwin : ∀ j, j < i → oracleWins (oracles j))
    (h0 : ∃ e, oracles i 0 = .error e) (h1 : ∃ e, oracles i 1 = .error e)
    (h2 : oracles i 2 = .error e2) :
    ∃ (W : WorkflowM) (ts : List TaskM) (tfail : TaskM),
      initiate clock oracles wf input = (W, .error (taskFailMessage e2)) ∧
      ts.length = i ∧
      W.tasks = ts ++ tfail :: (resolveWorkflow input wf).tasks.drop (i + 1) ∧
      tfail.output = ((resolveWorkflow input wf).tasks.get? i).bind TaskM.output ∧
      W.inputTokens = wf.inputTokens + (ts.map TaskM.inputTokens).sum ∧
      W.outputTokens = wf.outputTokens + (ts.map TaskM.outputTokens).sum ∧
      W.endTime = wf.endTime ∧
      W.totalTime = wf.totalTime := by
  obtain ⟨W, ts, tfail, hrun, hlen, htasks, hfo, hinW, houtW, hstart, hend, htot⟩ :=
    runTasks_fail_at clock oracles (clock 0) i (resolveWorkflow input wf).tasks [] 0 1
      { resolveWorkflow input wf with startTime := clock 0 } e2
      (by rwa [resolveWorkflow_length])
      (fun j hj => by simpa using hwin j hj)
      (by simpa using h0) (by simpa using h1) (by simpa using h2)
  refine ⟨W, ts, tfail, ?_, hlen, by simpa using htasks, hfo, ?_, ?_, ?_, ?_⟩
  · rw [initiate_eq]
    exact hrun
  · rw [hinW]
    have hacc : ({ resolveWorkflow input wf with startTime := clock 0 } : WorkflowM).inputTokens
        = wf.inputTokens := resolveWorkflow_inputTokens input wf
    rw [hacc]
  · rw [houtW]
    have hacc : ({ resolveWorkflow input wf with startTime := clock 0 } : WorkflowM).outputTokens
        = wf.outputTokens := resolveWorkflow_outputTokens input wf
    rw [hacc]
  · rw [hend]
    exact resolveWorkflow_endTime input wf
  · rw [htot]
    exact resolveWorkflow_totalTime input wf

/-- C6 witness: two Units; the first succeeds, the second fails on all three
attempts with message `X`; the run rejects with the wrapped error, the first
Unit's tokens are accumulated, and the failing Unit has no output. -/
theorem c6_failfast_witness :
    ∃ (W : WorkflowM) (ts : List TaskM) (tfail : TaskM),
      initiate (fun n => (n : Int))
          (fun idx _ => if idx = 0 then .ok ((("R").data, 3, 4)) else .error (("X").data))
          { tasks := [{ description := ("a").data, expectedOutput := ("b").data },
                      { description := ("c").data, expectedOutput := ("d").data }],
            agents := [] } none
        = (W, .error (taskFailMessage (("X").data))) ∧
      ts.length = 1 ∧
      W.tasks = ts ++ tfail :: (resolveWorkflow none
          { tasks := [{ description := ("a").data, expectedOutput := ("b").data },
                      { description := ("c").data, expectedOutput := ("d").data }],
            agents := [] }).tasks.drop 2 ∧
      tfail.output = ((resolveWorkflow none
          { tasks := [{ description := ("a").data, expectedOutput := ("b").data },
                      { description := ("c").data, expectedOutput := ("d").data }],
            agents := [] }).tasks.get? 1).bind TaskM.output ∧
      W.inputTokens = 0 + (ts.map TaskM.inputTokens).sum ∧
      W.outputTokens = 0 + (ts.map TaskM.outputTokens).sum ∧
      W.endTime = 0 ∧
      W.totalTime = 0 := by
  exact c6_failfast (fun n => (n : Int))
    (fun idx _ => if idx = 0 then .ok ((("R").data, 3, 4)) else .error (("X").data))
    { tasks := [{ description := ("a").data, expectedOutput := ("b").data },
                { description := ("c").data, expectedOutput := ("d").data }],
      agents := [] } none 1 (("X").data) (by simp)
    (fun j hj => by
      interval_cases j
      exact ⟨0, by decide, fun i hi => absurd hi (Nat.not_lt_zero i),
        ⟨((("R").data, 3, 4)), rfl⟩⟩)
    ⟨("X").data, rfl⟩ ⟨("X").data, rfl⟩ rfl

/-- C9: a Model-client response whose formatted content is missing or empty
counts as success: the formatter returns empty text without raising, the Unit
finishes on the first attempt with `output` set to the empty (but defined)
string, and a single-Unit workflow returns that empty text as its result. -/
theorem c9_empty_content (raw : ChatCompletion)
    (h : contentOf raw = none ∨ contentOf raw = some []) :
    ∀ (clock : Nat → Int) (t : TaskM) (tick : Nat) (depOuts : Option (List (Option Str)))
      (ags : List AgentM),
      (modelResponseFormatter raw).1 = [] ∧
      (taskExecute clock (fun _ => .ok (modelResponseFormatter raw)) depOuts t tick).2.2
        = .ok [] ∧
      (taskExecute clock (fun _ => .ok (modelResponseFormatter raw)) depOuts t tick).1.output
        = some [] ∧
      (taskExecute clock (fun _ => .ok (modelResponseFormatter raw)) depOuts t tick).1.retryCount
        = 0 ∧
      (initiate clock (fun _ _ => .ok (modelResponseFormatter raw))
          { tasks := [t], agents := ags } none).2 = .ok [] := by
  intro clock t tick depOuts ags
  have hfmt : (modelResponseFormatter raw).1 = [] := by
    rcases h with h | h <;> simp [modelResponseFormatter, h]
  have hm : modelResponseFormatter raw
      = ([], (modelResponseFormatter raw).2.1, (modelResponseFormatter raw).2.2) := by
    rw [← hfmt]
  have hoc : (fun _ => Except.ok (modelResponseFormatter raw) :
      Nat → Except Str (Str × Nat × Nat)) 0
      = .ok ([], (modelResponseFormatter raw).2.1, (modelResponseFormatter raw).2.2) := by
    rw [← hm]
  have key : taskExecute clock (fun _ => .ok (modelResponseFormatter raw)) depOuts t tick
      = ({ depApply depOuts t with
            retryCount := 0,
            inputTokens := (modelResponseFormatter raw).2.1,
            outputTokens := (modelResponseFormatter raw).2.2,
            output := some [],
            startTime := clock tick,
            endTime := clock (tick + 1),
            totalTime := clock (tick + 1) - clock tick }, tick + 2, .ok []) :=
    attemptLoop_ok clock (fun _ => .ok (modelResponseFormatter raw)) 2
      (depApply depOuts t) 0 tick [] (modelResponseFormatter raw).2.1
      (modelResponseFormatter raw).2.2 hoc
  let dep : Option (List (Option Str)) :=
    t.depIdxs.map (fun idxs => idxs.map (fun i => (([t].get? i).bind TaskM.output)))
  have key2 : taskExecute clock (fun _ => Except.ok (modelResponseFormatter raw)) dep t 1
      = ({ depApply dep t with
            retryCount := 0,
            inputTokens := (modelResponseFormatter raw).2.1,
            outputTokens := (modelResponseFormatter raw).2.2,
            output := some [],
            startTime := clock 1,
            endTime := clock (1 + 1),
            totalTime := clock (1 + 1) - clock 1 }, 1 + 2, .ok []) :=
    attemptLoop_ok clock (fun _ => Except.ok (modelResponseFormatter raw)) 2 (depApply dep t)
      0 1 [] (modelResponseFormatter raw).2.1 (modelResponseFormatter raw).2.2 hoc
  have keyW := runTasks_last_ok clock
    (fun _ _ => Except.ok (modelResponseFormatter raw)) (clock 0) [] t 0 1
    { tasks := [t], agents := ags, startTime := clock 0 } _ _ _ key2
  refine ⟨hfmt, ?_, ?_, ?_, ?_⟩
  · rw [key]
  · rw [key]
  · rw [key]
  · have hini : initiate clock (fun _ _ => Except.ok (modelResponseFormatter raw))
        { tasks := [t], agents := ags } none
        = runTasks clock (fun _ _ => Except.ok (modelResponseFormatter raw)) (clock 0) []
            (t :: []) 0 1 { tasks := [t], agents := ags, startTime := clock 0 } := rfl
    rw [hini, keyW]

/-- C9 witness: a response with one choice whose content is missing yields
empty text, an immediately successful Unit with empty defined output, and an
empty workflow result. -/
theorem c9_empty_content_witness :
    (contentOf emptyRaw = none ∨ contentOf emptyRaw = some []) ∧
    ((modelResponseFormatter emptyRaw).1 = [] ∧
      (taskExecute (fun n => (n : Int)) (fun _ => .ok (modelResponseFormatter emptyRaw)) none
          { description := ("d").data, expectedOutput := ("e").data } 0).2.2 = .ok [] ∧
      (taskExecute (fun n => (n : Int)) (fun _ => .ok (modelResponseFormatter emptyRaw)) none
          { description := ("d").data, expectedOutput := ("e").data } 0).1.output = some [] ∧
      (taskExecute (fun n => (n : Int)) (fun _ => .ok (modelResponseFormatter emptyRaw)) none
          { description := ("d").data, expectedOutput := ("e").data } 0).1.retryCount = 0 ∧
      (initiate (fun n => (n : Int)) (fun _ _ => .ok (modelResponseFormatter emptyRaw))
          { tasks := [{ description := ("d").data, expectedOutput := ("e").data }],
            agents := [] } none).2 = .ok []) := by
  refine ⟨Or.inl rfl, ?_⟩
  exact c9_empty_content emptyRaw (Or.inl rfl) (fun n => (n : Int))
    { description := ("d").data, expectedOutput := ("e").data } 0 none []

/-- Model validation: the embedding reproduces the repository's own
fillTemplateString test expectations (tests/fillTemplateString.test.ts). -/
theorem fillTemplateString_matches_test_suite :
    fillTemplateString (("Hello, {name}!").data) [((("name").data), (("Alice").data))]
      = ("Hello, Alice!").data ∧
    fillTemplateString (("Hello, {name}! You are {age} years old.").data)
        [((("name").data), (("Bob").data))]
      = ("Hello, Bob! You are {age} years old.").data ∧
    fillTemplateString
        ((("Set is written as \\").data ++ '{' :: ("a, b, c\\").data ++ '}' :: (".").data)) []
      = ("Set is written as \x7ba, b, c\x7d.").data ∧
    fillTemplateString (("No placeholders here.").data) [] = ("No placeholders here.").data := by
  refine ⟨by decide, by decide, by decide, by decide⟩
